import Mathlib

/-!
# Ripple transaction serializer of the KeepKey firmware (lib/firmware/ripple.c)

A shallow embedding of the serializer and of the signing routine, followed by
theorems about them.

Conventions of the embedding.

* The destination storage is a list of bytes (`Writer.mem`); the cursor `*buf`
  is an offset into it (`Writer.pos`) and the pointer `end` is the offset
  `end_`.  A store through the cursor is `List.set`, which leaves the list
  alone when the offset lies outside the storage.
* C `int`, `int32_t` and `int64_t` values are `Int`; unsigned values are `Nat`.
  Conversions between them are written out (`toU8`, `toInt32`, `toInt64`).
  `>>` on a signed value is the arithmetic shift `>>>` of `Int`, `&` is
  `Int.land`, `|` is `Int.lor`.
* `assert` is live: a failed assertion ends the run.  `Outcome.abort` records
  the writer at that moment.
* `ok = ok && f(...)` is `Outcome.andThen`: `f` runs only while `ok` is true.
-/

namespace Ripple

/-! ## Data model -/

/-- The enum `FieldType`; its enumerators are the constants below. -/
abbrev FieldType := Nat

def FT_INT16 : FieldType := 1
def FT_INT32 : FieldType := 2
def FT_AMOUNT : FieldType := 6
def FT_VL : FieldType := 7
def FT_ACCOUNT : FieldType := 8

/-- The struct `FieldMapping`. -/
structure FieldMapping where
  type : FieldType
  key : Int
deriving DecidableEq, Repr

def FM_account : FieldMapping := ⟨FT_ACCOUNT, 1⟩
def FM_amount : FieldMapping := ⟨FT_AMOUNT, 1⟩
def FM_destination : FieldMapping := ⟨FT_ACCOUNT, 3⟩
def FM_fee : FieldMapping := ⟨FT_AMOUNT, 8⟩
def FM_sequence : FieldMapping := ⟨FT_INT32, 4⟩
def FM_type : FieldMapping := ⟨FT_INT16, 2⟩
def FM_signingPubKey : FieldMapping := ⟨FT_VL, 3⟩
def FM_flags : FieldMapping := ⟨FT_INT32, 2⟩
def FM_txnSignature : FieldMapping := ⟨FT_VL, 4⟩
def FM_lastLedgerSequence : FieldMapping := ⟨FT_INT32, 27⟩
def FM_destinationTag : FieldMapping := ⟨FT_INT32, 14⟩

/-- Conversion of an `int` argument to the `uint8_t` parameter of `append_u8`. -/
def toU8 (v : Int) : Nat := (v % 256).toNat

/-- Conversion of an unsigned value to `int32_t` (also `size_t` to `int`):
the low 32 bits, read as two's complement. -/
def toInt32 (n : Nat) : Int :=
  if n % 2 ^ 32 < 2 ^ 31 then ((n % 2 ^ 32 : Nat) : Int)
  else ((n % 2 ^ 32 : Nat) : Int) - 2 ^ 32

/-- Conversion of a `uint64_t` to `int64_t`. -/
def toInt64 (n : Nat) : Int :=
  if n % 2 ^ 64 < 2 ^ 63 then ((n % 2 ^ 64 : Nat) : Int)
  else ((n % 2 ^ 64 : Nat) : Int) - 2 ^ 64

/-- The pair (storage, cursor) behind `uint8_t **buf`. -/
structure Writer where
  mem : List Nat
  pos : Nat
deriving DecidableEq, Repr

/-- How a call ends: it returns `ok` with the writer it leaves, or an
assertion fails. -/
inductive Outcome where
  | ret (ok : Bool) (w : Writer)
  | abort (w : Writer)
deriving DecidableEq, Repr

/-- The statement `ok = ok && f(buf, end, ...)`. -/
def Outcome.andThen (o : Outcome) (f : Writer → Outcome) : Outcome :=
  match o with
  | .ret true w => f w
  | .ret false w => .ret false w
  | .abort w => .abort w

/-- The statement `if (c) ok = ok && f(buf, end, ...)`. -/
def Outcome.andThenIf (o : Outcome) (c : Bool) (f : Writer → Outcome) : Outcome :=
  if c then o.andThen f else o

/-! ## Bounded writer and field encoders -/

def append_u8 (end_ : Nat) (val : Int) (w : Writer) : Outcome :=
  if w.pos + 1 > end_ then .ret false w
  else .ret true ⟨w.mem.set w.pos (toU8 val), w.pos + 1⟩

def ripple_serializeType (end_ : Nat) (m : FieldMapping) (w : Writer) : Outcome :=
  if m.key ≤ 0xf then
    append_u8 end_ (Int.lor ((m.type <<< 4 : Nat) : Int) m.key) w
  else
    ((Outcome.ret true w).andThen
      (append_u8 end_ ((m.type <<< 4 : Nat) : Int))).andThen
      (append_u8 end_ m.key)

def ripple_serializeInt16 (end_ : Nat) (m : FieldMapping) (val : Int) (w : Writer) : Outcome :=
  if m.type ≠ FT_INT16 then .abort w
  else
    (((Outcome.ret true w).andThen
      (ripple_serializeType end_ m)).andThen
      (append_u8 end_ (Int.land (val >>> (8 : Nat)) 0xff))).andThen
      (append_u8 end_ (Int.land val 0xff))

def ripple_serializeInt32 (end_ : Nat) (m : FieldMapping) (val : Int) (w : Writer) : Outcome :=
  if m.type ≠ FT_INT32 then .abort w
  else
    (((((Outcome.ret true w).andThen
      (ripple_serializeType end_ m)).andThen
      (append_u8 end_ (Int.land (val >>> (24 : Nat)) 0xff))).andThen
      (append_u8 end_ (Int.land (val >>> (16 : Nat)) 0xff))).andThen
      (append_u8 end_ (Int.land (val >>> (8 : Nat)) 0xff))).andThen
      (append_u8 end_ (Int.land val 0xff))

def ripple_serializeAmount (end_ : Nat) (m : FieldMapping) (amount : Int) (w : Writer) : Outcome :=
  match (Outcome.ret true w).andThen (ripple_serializeType end_ m) with
  | .abort w1 => .abort w1
  | .ret ok w1 =>
    if ¬ (amount ≥ 0) then .abort w1
    else if ¬ (amount ≤ 100000000000) then .abort w1
    else
      let msb : Nat := toU8 (Int.land (amount >>> (7 * 8 : Nat)) 0xff)
      let msb : Nat := msb &&& 0x7f
      let msb : Nat := msb ||| 0x40
      ((((((((Outcome.ret ok w1).andThen
        (append_u8 end_ (msb : Int))).andThen
        (append_u8 end_ (Int.land (amount >>> (6 * 8 : Nat)) 0xff))).andThen
        (append_u8 end_ (Int.land (amount >>> (5 * 8 : Nat)) 0xff))).andThen
        (append_u8 end_ (Int.land (amount >>> (4 * 8 : Nat)) 0xff))).andThen
        (append_u8 end_ (Int.land (amount >>> (3 * 8 : Nat)) 0xff))).andThen
        (append_u8 end_ (Int.land (amount >>> (2 * 8 : Nat)) 0xff))).andThen
        (append_u8 end_ (Int.land (amount >>> (1 * 8 : Nat)) 0xff))).andThen
        (append_u8 end_ (Int.land amount 0xff))

def ripple_serializeVarint (end_ : Nat) (val : Int) (w : Writer) : Outcome :=
  if val < 0 then .ret false w
  else if val < 192 then append_u8 end_ val w
  else if val ≤ 12480 then
    let val := val - 193
    ((Outcome.ret true w).andThen
      (append_u8 end_ (193 + (val >>> (8 : Nat))))).andThen
      (append_u8 end_ (Int.land val 0xff))
  else if val < 918744 then
    if ¬ (w.pos + 3 < end_) then .abort w
    else
      let val := val - 12481
      (((Outcome.ret true w).andThen
        (append_u8 end_ (241 + (val >>> (16 : Nat))))).andThen
        (append_u8 end_ (Int.land (val >>> (8 : Nat)) 0xff))).andThen
        (append_u8 end_ (Int.land val 0xff))
  else .abort w

/-- Stores the bytes `bs` at the offsets `pos`, `pos + 1`, ... of `mem`. -/
def store_bytes (mem : List Nat) (pos : Nat) : List Nat → List Nat
  | [] => mem
  | b :: bs => store_bytes (mem.set pos b) (pos + 1) bs

/-- The call `memcpy(*buf, bytes, count); *buf += count`; `bytes` is the
content of the source from the pointer on. -/
def memcpy_advance (bytes : List Nat) (count : Nat) (w : Writer) : Writer :=
  ⟨store_bytes w.mem w.pos (bytes.take count), w.pos + count⟩

def ripple_serializeBytes (end_ : Nat) (bytes : List Nat) (count : Nat) (w : Writer) : Outcome :=
  match (Outcome.ret true w).andThen (ripple_serializeVarint end_ (toInt32 count)) with
  | .abort w1 => .abort w1
  | .ret ok w1 =>
    if !ok || w1.pos + count ≥ end_ then .abort w1
    else .ret ok (memcpy_advance bytes count w1)

/-! ## Messages and collaborators declared outside ripple.c -/

/-- Modelled from the spec: the payment part of the request (`tx->payment`),
declared in a generated header that is not among the sources.  The fields are
the ones ripple.c reads; each optional field has its presence flag. -/
structure RipplePayment where
  has_amount : Bool
  amount : Nat
  has_destination : Bool
  destination : String
  has_destination_tag : Bool
  destination_tag : Nat
deriving DecidableEq, Repr

/-- Modelled from the spec: the request `RippleSignTx` (the
UnsignedTransactionRequest of the data model), declared in a generated header
that is not among the sources. -/
structure RippleSignTx where
  has_fee : Bool
  fee : Nat
  has_flags : Bool
  flags : Nat
  has_sequence : Bool
  sequence : Nat
  has_last_ledger_sequence : Bool
  last_ledger_sequence : Nat
  payment : RipplePayment
deriving DecidableEq, Repr

/-- Modelled from the spec: the response `RippleSignedTx` (the
SignedTransactionResult of the data model): two byte arrays with their sizes
and presence flags. -/
structure RippleSignedTx where
  has_signature : Bool
  signature_size : Nat
  signature_bytes : List Nat
  has_serialized_tx : Bool
  serialized_tx_size : Nat
  serialized_tx_bytes : List Nat
deriving DecidableEq, Repr

/-- The two members of `HDNode` that ripple.c reads. -/
structure HDNode where
  public_key : List Nat
  private_key : List Nat
deriving DecidableEq, Repr

/-- The collaborators ripple.c calls and the constants it takes from headers,
none of which is defined in ripple.c.

* `base58_decode_check a` is the content the decoder leaves in `addr_raw`; its
  length is the value the decoder returns (the empty list: it returned 0).
* `base58_encode_check` is `none` when the encoder returns 0.
* `ecdsa_sign_digest key digest` is the return code and the content of `sig`
  after the call.
* `ecdsa_sig_to_der sig` is the DER encoding; its length is the returned size.
* `bytes_size` is `sizeof(resp->serialized_tx.bytes)` and `struct_size` is
  `sizeof(resp->serialized_tx)`. -/
structure Env where
  curve_found : Bool
  hasher_sha2_ripemd : List Nat → List Nat
  base58_encode_check : List Nat → Option String
  base58_decode_check : String → List Nat
  sha512_Raw : List Nat → List Nat
  ecdsa_sign_digest : List Nat → List Nat → Int × List Nat
  ecdsa_sig_to_der : List Nat → List Nat
  RIPPLE_FLAG_FULLY_CANONICAL : Nat
  bytes_size : Nat
  struct_size : Nat

/-! ## Address, blob and transaction serializers -/

def ripple_getAddress (env : Env) (node : HDNode) : Option String :=
  let buff : List Nat :=
    ([0] ++ env.hasher_sha2_ripemd (node.public_key.take 33) ++ List.replicate 64 0).take 64
  env.base58_encode_check (buff.take 21)

def ripple_serializeAddress (env : Env) (end_ : Nat) (_m : FieldMapping) (address : String)
    (w : Writer) : Outcome :=
  let addr_raw : List Nat := env.base58_decode_check address
  let addr_raw_len : Nat := addr_raw.length
  if addr_raw_len ≠ 20 then
    .ret true ⟨w.mem, w.pos + 20⟩
  else
    ripple_serializeBytes end_ (addr_raw.drop 1) (addr_raw_len - 1) w

def ripple_serializeVL (end_ : Nat) (m : FieldMapping) (bytes : List Nat) (count : Nat)
    (w : Writer) : Outcome :=
  ((Outcome.ret true w).andThen
    (ripple_serializeType end_ m)).andThen
    (ripple_serializeBytes end_ bytes count)

def ripple_serialize (env : Env) (end_ : Nat) (tx : RippleSignTx)
    (source_address : Option String) (pubkey : Option (List Nat)) (sig : Option (List Nat))
    (w : Writer) : Outcome :=
  let o := Outcome.ret true w
  let o := o.andThen (ripple_serializeInt16 end_ FM_type 0)
  let o := o.andThenIf tx.has_flags
    (ripple_serializeInt32 end_ FM_flags (toInt32 tx.flags))
  let o := o.andThenIf tx.has_sequence
    (ripple_serializeInt32 end_ FM_sequence (toInt32 tx.sequence))
  let o := o.andThenIf tx.payment.has_destination_tag
    (ripple_serializeInt32 end_ FM_destinationTag (toInt32 tx.payment.destination_tag))
  let o := o.andThenIf tx.has_last_ledger_sequence
    (ripple_serializeInt32 end_ FM_lastLedgerSequence (toInt32 tx.last_ledger_sequence))
  let o := o.andThenIf tx.payment.has_amount
    (ripple_serializeAmount end_ FM_amount (toInt64 tx.payment.amount))
  let o := o.andThenIf tx.has_fee
    (ripple_serializeAmount end_ FM_amount (toInt64 tx.fee))
  let o := o.andThenIf pubkey.isSome
    (ripple_serializeVL end_ FM_signingPubKey (pubkey.getD []) 33)
  let o := o.andThenIf sig.isSome
    (ripple_serializeVL end_ FM_txnSignature (sig.getD []) 64)
  let o := o.andThenIf source_address.isSome
    (ripple_serializeAddress env end_ FM_account (source_address.getD ""))
  let o := o.andThenIf tx.payment.has_destination
    (ripple_serializeAddress env end_ FM_destination tx.payment.destination)
  o

/-! ## Signing -/

/-- What a run of `ripple_signTx` leaves: the request and the response as
modified, whether an assertion ended the run, and the byte string handed to
`sha512_Raw` when the run got that far. -/
structure SignRun where
  tx : RippleSignTx
  resp : RippleSignedTx
  aborted : Bool
  hashed : Option (List Nat)
deriving DecidableEq, Repr

/-- The request after lines 264-268: the flags field is created when absent and
the canonical bit is or-ed in. -/
def set_canonical (env : Env) (tx : RippleSignTx) : RippleSignTx :=
  let flags : Nat := if !tx.has_flags then 0 else tx.flags
  RippleSignTx.mk tx.has_fee tx.fee true
    ((flags ||| env.RIPPLE_FLAG_FULLY_CANONICAL) % 2 ^ 32)
    tx.has_sequence tx.sequence tx.has_last_ledger_sequence tx.last_ledger_sequence tx.payment

/-- The response with `serialized_tx.bytes` replaced. -/
def RippleSignedTx.withBytes (r : RippleSignedTx) (bytes : List Nat) : RippleSignedTx :=
  RippleSignedTx.mk r.has_signature r.signature_size r.signature_bytes
    r.has_serialized_tx r.serialized_tx_size bytes

/-- The response after lines 293-294: the DER bytes overwrite the start of
`signature.bytes`, their length is recorded and `has_signature` is set. -/
def RippleSignedTx.withSignature (r : RippleSignedTx) (der : List Nat) : RippleSignedTx :=
  RippleSignedTx.mk true der.length (der ++ r.signature_bytes.drop der.length)
    r.has_serialized_tx r.serialized_tx_size r.serialized_tx_bytes

/-- The response after lines 303-304. -/
def RippleSignedTx.withSerialized (r : RippleSignedTx) (w : Writer) : RippleSignedTx :=
  RippleSignedTx.mk r.has_signature r.signature_size r.signature_bytes
    true w.pos w.mem

/-- The first pass (line 281): into the zeroed array that starts with the four
bytes 53 54 58 00, from offset 4, with the public key and no signature.  The
array is taken to have at least four bytes. -/
def first_pass (env : Env) (node : HDNode) (tx : RippleSignTx) (source_address : String) :
    Outcome :=
  ripple_serialize env (4 + (env.bytes_size - 4)) tx (some source_address)
    (some node.public_key) none
    ⟨[0x53, 0x54, 0x58, 0x00] ++ List.replicate (env.bytes_size - 4) 0, 4⟩

/-- The final pass (line 300): into the zeroed array, from offset 0, with
`end` at `sizeof(resp->serialized_tx)`, the signature being the content of
`resp->signature.bytes`. -/
def final_pass (env : Env) (node : HDNode) (tx : RippleSignTx) (source_address : String)
    (signature_bytes : List Nat) : Outcome :=
  ripple_serialize env env.struct_size tx (some source_address)
    (some node.public_key) (some signature_bytes)
    ⟨List.replicate env.bytes_size 0, 0⟩

def ripple_signTx (env : Env) (node : HDNode) (tx : RippleSignTx) (resp : RippleSignedTx) :
    SignRun :=
  if !env.curve_found then ⟨tx, resp, false, none⟩
  else
    let tx := set_canonical env tx
    let resp := resp.withBytes
      ([0x53, 0x54, 0x58, 0x00] ++ List.replicate (env.bytes_size - 4) 0)
    match ripple_getAddress env node with
    | none => ⟨tx, resp, false, none⟩
    | some source_address =>
      match first_pass env node tx source_address with
      | .abort w => ⟨tx, resp.withBytes w.mem, true, none⟩
      | .ret false w => ⟨tx, resp.withBytes w.mem, false, none⟩
      | .ret true w =>
        let resp := resp.withBytes w.mem
        let hashed := w.mem.take w.pos
        let hash := env.sha512_Raw hashed
        let sig := (env.ecdsa_sign_digest node.private_key (hash.take 32)).2
        let resp := resp.withSignature (env.ecdsa_sig_to_der sig)
        match final_pass env node tx source_address resp.signature_bytes with
        | .abort w1 => ⟨tx, resp.withBytes w1.mem, true, some hashed⟩
        | .ret false w1 => ⟨tx, resp.withBytes w1.mem, false, some hashed⟩
        | .ret true w1 => ⟨tx, resp.withSerialized w1, false, some hashed⟩

/-! ## Reference encodings -/

/-- The writer after the bytes `bs` have been stored from the cursor on and the
cursor has moved past them. -/
def Writer.append (w : Writer) (bs : List Nat) : Writer :=
  ⟨store_bytes w.mem w.pos bs, w.pos + bs.length⟩

/-- The same, written out on the storage: the bytes before the cursor, then
`bs`, then the bytes that were behind the overwritten ones. -/
def Writer.appended (w : Writer) (bs : List Nat) : Writer :=
  ⟨w.mem.take w.pos ++ bs ++ w.mem.drop (w.pos + bs.length), w.pos + bs.length⟩

/-- The tag of a field mapping: the bytes `ripple_serializeType` hands to
`append_u8`, one when the key is at most 15 and two otherwise. -/
def tag_bytes (m : FieldMapping) : List Nat :=
  if m.key ≤ 0xf then [toU8 (Int.lor ((m.type <<< 4 : Nat) : Int) m.key)]
  else [toU8 ((m.type <<< 4 : Nat) : Int), toU8 m.key]

/-- The value of a byte string read as a big-endian number. -/
def be_value (bs : List Nat) : Nat := bs.foldl (fun acc b => acc * 256 + b) 0

/-- The four bytes of a 32-bit value, most significant first. -/
def be32 (n : Nat) : List Nat :=
  [n / 2 ^ 24 % 256, n / 2 ^ 16 % 256, n / 2 ^ 8 % 256, n % 256]

/-- The eight bytes of a 64-bit value, most significant first. -/
def be64 (n : Nat) : List Nat :=
  [n / 2 ^ 56 % 256, n / 2 ^ 48 % 256, n / 2 ^ 40 % 256, n / 2 ^ 32 % 256,
   n / 2 ^ 24 % 256, n / 2 ^ 16 % 256, n / 2 ^ 8 % 256, n % 256]

/-- The length encoding in the words of the specification: one byte `n` below
192; two bytes `193 + ((n-193)>>8)`, `(n-193)&0xff` up to 12480; three bytes
`241 + ((n-12481)>>16)`, `((n-12481)>>8)&0xff`, `(n-12481)&0xff` above. -/
def varint_bytes (n : Int) : List Nat :=
  if n < 192 then [n.toNat]
  else if n ≤ 12480 then
    [(193 + ((n - 193) >>> (8 : Nat))).toNat, (Int.land (n - 193) 0xff).toNat]
  else
    [(241 + ((n - 12481) >>> (16 : Nat))).toNat,
     (Int.land ((n - 12481) >>> (8 : Nat)) 0xff).toNat,
     (Int.land (n - 12481) 0xff).toNat]

/-- Whether a call returned success. -/
def Outcome.succeeded (o : Outcome) : Bool :=
  match o with
  | .ret true _ => true
  | _ => false

/-- A writer over `n` zero bytes with the cursor at the start. -/
def zero_writer (n : Nat) : Writer := ⟨List.replicate n 0, 0⟩

/-- A blob field: the header `hdr` (the tag and the length byte) followed by
the blob; nothing when the blob is absent. -/
def opt_field (hdr : List Nat) (blob : Option (List Nat)) : List Nat :=
  match blob with
  | some b => hdr ++ b
  | none => []

/-- The fields of a transaction without addresses, in the order of the
specification: TransactionType, Flags, Sequence, DestinationTag,
LastLedgerSequence, Amount, Fee, SigningPubKey (73, the length 33, the key),
TxnSignature (74, the length 64, the signature).  An absent field contributes
no bytes.  `feeTag` is the tag byte in front of the fee. -/
def tx_fields (tx : RippleSignTx) (feeTag : Nat) (pubkey sig : Option (List Nat)) : List Nat :=
  [0x12, 0x00, 0x00]
    ++ (if tx.has_flags then 0x22 :: be32 tx.flags else [])
    ++ (if tx.has_sequence then 0x24 :: be32 tx.sequence else [])
    ++ (if tx.payment.has_destination_tag then 0x2E :: be32 tx.payment.destination_tag else [])
    ++ (if tx.has_last_ledger_sequence then 0x20 :: 0x1B :: be32 tx.last_ledger_sequence else [])
    ++ (if tx.payment.has_amount then 0x61 :: be64 (tx.payment.amount + 2 ^ 62) else [])
    ++ (if tx.has_fee then feeTag :: be64 (tx.fee + 2 ^ 62) else [])
    ++ opt_field [0x73, 33] pubkey
    ++ opt_field [0x74, 64] sig

/-- The number of bytes of `tx_fields`. -/
def tx_size (tx : RippleSignTx) (pubkey sig : Option (List Nat)) : Nat :=
  3 + (if tx.has_flags then 5 else 0)
    + (if tx.has_sequence then 5 else 0)
    + (if tx.payment.has_destination_tag then 5 else 0)
    + (if tx.has_last_ledger_sequence then 6 else 0)
    + (if tx.payment.has_amount then 9 else 0)
    + (if tx.has_fee then 9 else 0)
    + (if pubkey.isSome then 35 else 0)
    + (if sig.isSome then 66 else 0)

/-- The request of the specification's example: sequence 1, amount 100 drops,
nothing else present. -/
def tx_seq1_amount100 : RippleSignTx :=
  ⟨false, 0, false, 0, true, 1, false, 0, ⟨true, 100, false, "", false, 0⟩⟩

/-- A request whose amount is one drop above the supported maximum. -/
def tx_amount_too_large : RippleSignTx :=
  ⟨false, 0, false, 0, false, 0, false, 0, ⟨true, 100000000001, false, "", false, 0⟩⟩

/-- Collaborators for evaluating the serializer on its own: every address
decodes to the 21 bytes 0, 1, ..., 20 (a version byte and a 20-byte hash). -/
def plain_env : Env :=
  Env.mk true (fun _ => List.replicate 20 0) (fun _ => some "r")
    (fun _ => List.range 21) (fun _ => List.replicate 64 0)
    (fun _ _ => (0, List.replicate 64 0)) (fun _ => List.replicate 70 0)
    0x80000000 1024 1028

/-- The request with amount 100 and fee 10 drops and nothing else present. -/
def tx_amount100_fee10 : RippleSignTx :=
  ⟨true, 10, false, 0, false, 0, false, 0, ⟨true, 100, false, "", false, 0⟩⟩

/-- The request with a destination address and nothing else present. -/
def tx_only_destination : RippleSignTx :=
  ⟨false, 0, false, 0, false, 0, false, 0, ⟨false, 0, true, "rDestination", false, 0⟩⟩

/-- Collaborators whose address decoder rejects every string (it returns 0). -/
def rejecting_env : Env :=
  Env.mk true (fun _ => List.replicate 20 0) (fun _ => some "r")
    (fun _ => []) (fun _ => List.replicate 64 0)
    (fun _ _ => (0, List.replicate 64 0)) (fun _ => List.replicate 70 0)
    0x80000000 1024 1028

/-- The DER encoding of the signature whose two halves are 32 bytes 0x22 each:
30 44 02 20 r 02 20 s, 70 bytes. -/
def der70 : List Nat :=
  [0x30, 0x44, 0x02, 0x20] ++ List.replicate 32 0x22 ++ [0x02, 0x20] ++ List.replicate 32 0x22

/-- Collaborators for evaluating `ripple_signTx`: the signing primitive
returns `code` and leaves 64 bytes 0x22 in `sig`, whose DER encoding is
`der70`; every address decodes to 21 bytes; `serialized_tx.bytes` has `n`
bytes and `serialized_tx` has `s`. -/
def sign_env (code : Int) (n s : Nat) : Env :=
  Env.mk true (fun _ => List.replicate 20 0xAA) (fun _ => some "rSource")
    (fun _ => List.range 21) (fun _ => List.replicate 64 0x11)
    (fun _ _ => (code, List.replicate 64 0x22)) (fun _ => der70)
    0x80000000 n s

/-- A node with a 33-byte public key and a 32-byte private key. -/
def demo_node : HDNode := ⟨0x02 :: List.replicate 32 0x01, List.replicate 32 0x03⟩

/-- A response with both presence flags clear, a 72-byte signature array and an
`n`-byte transaction array. -/
def clear_resp (n : Nat) : RippleSignedTx :=
  ⟨false, 0, List.replicate 72 0, false, 0, List.replicate n 0⟩

/-- The writer an outcome leaves, whether the call returned or an assertion
ended it. -/
def Outcome.writer : Outcome → Writer
  | .ret _ w => w
  | .abort w => w

/-- A relation between the writer before and after a call that holds across
the two elementary steps of the encoders: the store of one byte by `append_u8`
when it has room, and the copy of `ripple_serializeBytes` when its test has
passed. -/
structure StepRel (end_ : Nat) (R : Writer → Writer → Prop) : Prop where
  refl : ∀ w, R w w
  trans : ∀ a b c, R a b → R b c → R a c
  store : ∀ (w : Writer) (v : Nat), w.pos + 1 ≤ end_ → R w ⟨w.mem.set w.pos v, w.pos + 1⟩
  copy : ∀ (w : Writer) (bytes : List Nat) (count : Nat),
    w.pos + count < end_ → R w (memcpy_advance bytes count w)

/-- The cursor stays at or before `end`, if it was there. -/
def Writer.bounded (end_ : Nat) (w w1 : Writer) : Prop :=
  w.pos ≤ end_ → w1.pos ≤ end_

/-- The cursor does not move back, the storage keeps its size and the bytes
before the old cursor are unchanged. -/
def Writer.frame (w w1 : Writer) : Prop :=
  w.pos ≤ w1.pos ∧ w1.mem.length = w.mem.length ∧ w1.mem.take w.pos = w.mem.take w.pos

/-- Whether a call returned to its caller (with success or with failure)
rather than being ended by an assertion. -/
def Outcome.returned : Outcome → Bool
  | .ret _ _ => true
  | .abort _ => false

/-- A writer over `n` bytes 0xFF with the cursor at the start. -/
def ff_writer (n : Nat) : Writer := ⟨List.replicate n 0xFF, 0⟩

/-- The steps of `ripple_serialize` after the Flags field (lines 234-251),
applied to the outcome of the steps before. -/
def serialize_tail (env : Env) (end_ : Nat) (tx : RippleSignTx)
    (source_address : Option String) (pubkey : Option (List Nat)) (sig : Option (List Nat))
    (o : Outcome) : Outcome :=
  let o := o.andThenIf tx.has_sequence
    (ripple_serializeInt32 end_ FM_sequence (toInt32 tx.sequence))
  let o := o.andThenIf tx.payment.has_destination_tag
    (ripple_serializeInt32 end_ FM_destinationTag (toInt32 tx.payment.destination_tag))
  let o := o.andThenIf tx.has_last_ledger_sequence
    (ripple_serializeInt32 end_ FM_lastLedgerSequence (toInt32 tx.last_ledger_sequence))
  let o := o.andThenIf tx.payment.has_amount
    (ripple_serializeAmount end_ FM_amount (toInt64 tx.payment.amount))
  let o := o.andThenIf tx.has_fee
    (ripple_serializeAmount end_ FM_amount (toInt64 tx.fee))
  let o := o.andThenIf pubkey.isSome
    (ripple_serializeVL end_ FM_signingPubKey (pubkey.getD []) 33)
  let o := o.andThenIf sig.isSome
    (ripple_serializeVL end_ FM_txnSignature (sig.getD []) 64)
  let o := o.andThenIf source_address.isSome
    (ripple_serializeAddress env end_ FM_account (source_address.getD ""))
  let o := o.andThenIf tx.payment.has_destination
    (ripple_serializeAddress env end_ FM_destination tx.payment.destination)
  o

/-- What one successful step of the serializer does to the writer: it appends
bytes, or (the address branch for a decoded length other than 20) it moves the
cursor over `n` bytes that it leaves as they are. -/
inductive Seg where
  | bytes (bs : List Nat)
  | skip (n : Nat)
deriving DecidableEq, Repr

def Seg.apply (w : Writer) : Seg → Writer
  | .bytes bs => w.append bs
  | .skip n => ⟨w.mem, w.pos + n⟩

def apply_segs (w : Writer) (segs : List Seg) : Writer := segs.foldl Seg.apply w

/-- The bytes a step leaves behind the old cursor when the destination was
zeroed beforehand. -/
def Seg.render : Seg → List Nat
  | .bytes bs => bs
  | .skip n => List.replicate n 0

def render : List Seg → List Nat
  | [] => []
  | s :: rest => s.render ++ render rest

/-- The steps for the fields from TransactionType to Fee. -/
def body_segs (tx : RippleSignTx) : List Seg :=
  [Seg.bytes [0x12, 0x00, 0x00]]
    ++ (if tx.has_flags then [Seg.bytes ([0x22] ++ be32 tx.flags)] else [])
    ++ (if tx.has_sequence then [Seg.bytes ([0x24] ++ be32 tx.sequence)] else [])
    ++ (if tx.payment.has_destination_tag
          then [Seg.bytes ([0x2E] ++ be32 tx.payment.destination_tag)] else [])
    ++ (if tx.has_last_ledger_sequence
          then [Seg.bytes ([0x20, 0x1B] ++ be32 tx.last_ledger_sequence)] else [])
    ++ (if tx.payment.has_amount
          then [Seg.bytes ([0x61] ++ be64 ((toInt64 tx.payment.amount).toNat + 2 ^ 62))] else [])
    ++ (if tx.has_fee
          then [Seg.bytes ([0x61] ++ be64 ((toInt64 tx.fee).toNat + 2 ^ 62))] else [])

/-- The step for the SigningPubKey field. -/
def pubkey_segs (pubkey : Option (List Nat)) : List Seg :=
  if pubkey.isSome then [Seg.bytes ([0x73] ++ [33] ++ (pubkey.getD []).take 33)] else []

/-- The steps for the fields from TransactionType to SigningPubKey. -/
def head_segs (tx : RippleSignTx) (pubkey : Option (List Nat)) : List Seg :=
  body_segs tx ++ pubkey_segs pubkey

/-- The step for the TxnSignature field. -/
def sig_segs (sig : Option (List Nat)) : List Seg :=
  if sig.isSome then [Seg.bytes ([0x74] ++ [64] ++ (sig.getD []).take 64)] else []

/-- The step of `ripple_serializeAddress`. -/
def address_seg (env : Env) (address : String) : Seg :=
  if (env.base58_decode_check address).length ≠ 20 then Seg.skip 20
  else Seg.bytes ([19] ++ ((env.base58_decode_check address).drop 1).take 19)

/-- The steps for the source address and the destination. -/
def address_segs (env : Env) (tx : RippleSignTx) (source_address : Option String) :
    List Seg :=
  (if source_address.isSome then [address_seg env (source_address.getD "")] else [])
    ++ (if tx.payment.has_destination then [address_seg env tx.payment.destination] else [])

/-- The bytes from the cursor on are all zero. -/
def Writer.clean (w : Writer) : Prop :=
  w.mem.drop w.pos = List.replicate (w.mem.length - w.pos) 0

theorem store_bytes_eq (bs : List Nat) : ∀ (mem : List Nat) (pos : Nat),
    pos + bs.length ≤ mem.length →
    store_bytes mem pos bs = mem.take pos ++ bs ++ mem.drop (pos + bs.length) := by
  induction bs with
  | nil => intro mem pos _; simp [store_bytes]
  | cons b bs ih =>
    intro mem pos h
    simp only [List.length_cons] at h
    have hp : pos < mem.length := by omega
    have hset : mem.set pos b = (mem.take pos ++ [b]) ++ mem.drop (pos + 1) := by
      rw [List.set_eq_take_append_cons_drop, if_pos hp]; simp
    have hl : (mem.take pos ++ [b]).length = pos + 1 := by
      simp [List.length_take]; omega
    have hlen : pos + 1 + bs.length ≤ (mem.set pos b).length := by
      rw [List.length_set]; omega
    rw [store_bytes, ih _ _ hlen, hset, List.take_left' hl]
    have hd : List.drop (pos + 1 + bs.length) (mem.take pos ++ [b] ++ mem.drop (pos + 1))
        = mem.drop (pos + (bs.length + 1)) := by
      rw [← hl, List.drop_append, List.drop_drop]
      congr 1; omega
    rw [hd]; simp

theorem store_bytes_append (as bs : List Nat) : ∀ (mem : List Nat) (pos : Nat),
    store_bytes (store_bytes mem pos as) (pos + as.length) bs = store_bytes mem pos (as ++ bs) := by
  induction as with
  | nil => intro mem pos; simp [store_bytes]
  | cons a as ih =>
    intro mem pos
    have h := ih (mem.set pos a) (pos + 1)
    have e : pos + 1 + as.length = pos + (as.length + 1) := by omega
    rw [e] at h
    simpa only [store_bytes, List.length_cons, List.cons_append] using h

theorem store_bytes_length (bs : List Nat) : ∀ (mem : List Nat) (pos : Nat),
    (store_bytes mem pos bs).length = mem.length := by
  induction bs with
  | nil => intro mem pos; rfl
  | cons b bs ih => intro mem pos; rw [store_bytes, ih, List.length_set]

@[simp] theorem Writer.append_pos (w : Writer) (bs : List Nat) :
    (w.append bs).pos = w.pos + bs.length := rfl

@[simp] theorem Writer.append_mem_length (w : Writer) (bs : List Nat) :
    (w.append bs).mem.length = w.mem.length := store_bytes_length bs w.mem w.pos

theorem Writer.append_nil (w : Writer) : w.append [] = w := rfl

theorem Writer.append_append (w : Writer) (as bs : List Nat) :
    (w.append as).append bs = w.append (as ++ bs) := by
  simp only [Writer.append, store_bytes_append, List.length_append, Nat.add_assoc]

theorem Writer.append_eq_appended (w : Writer) (bs : List Nat)
    (h : w.pos + bs.length ≤ w.mem.length) : w.append bs = w.appended bs := by
  simp only [Writer.append, Writer.appended, store_bytes_eq bs w.mem w.pos h]

@[simp] theorem Outcome.ret_true_andThen (w : Writer) (f : Writer → Outcome) :
    (Outcome.ret true w).andThen f = f w := rfl

theorem land_0xff (x : Int) : Int.land x 0xff = x % 256 := by
  cases x with
  | ofNat n =>
    show ((n &&& 255 : Nat) : Int) = _
    have := Nat.and_pow_two_sub_one_eq_mod n 8
    norm_num at this
    rw [this]; rfl
  | negSucc n =>
    show ((Nat.ldiff 255 n : Nat) : Int) = _
    have h : Nat.ldiff 255 n = 255 - n % 256 := by
      apply Nat.eq_of_testBit_eq
      intro i
      rw [Nat.testBit_ldiff]
      have h1 : (255 - n % 256) = 2^8 - (n % 2^8 + 1) := by omega
      rw [h1, Nat.testBit_two_pow_sub_succ (Nat.mod_lt _ (by norm_num)), Nat.testBit_mod_two_pow]
      have h2 : (255 : Nat) = 2^8 - 1 := by norm_num
      rw [h2, Nat.testBit_two_pow_sub_one]
      cases decide (i < 8) <;> simp
    rw [h, Int.negSucc_eq]
    omega

theorem toU8_land (x : Int) : toU8 (Int.land x 0xff) = toU8 x := by
  simp only [toU8, land_0xff]; congr 1; omega

theorem toU8_shr (x : Int) (k : Nat) : toU8 (x >>> k) = (x / 2 ^ k % 256).toNat := by
  simp only [toU8, Int.shiftRight_eq_div_pow]; norm_cast

theorem toU8_natCast (n : Nat) : toU8 (n : Int) = n % 256 := by
  simp only [toU8]; omega

theorem append_u8_ok (end_ : Nat) (val : Int) (w : Writer) (h : w.pos + 1 ≤ end_) :
    append_u8 end_ val w = .ret true (w.append [toU8 val]) := by
  simp only [append_u8, Writer.append, store_bytes, List.length_singleton]
  rw [if_neg (by omega)]

theorem ripple_serializeType_ok (end_ : Nat) (m : FieldMapping) (w : Writer)
    (h : w.pos + (tag_bytes m).length ≤ end_) :
    ripple_serializeType end_ m w = .ret true (w.append (tag_bytes m)) := by
  unfold ripple_serializeType tag_bytes
  unfold tag_bytes at h
  split
  · rename_i hk
    rw [if_pos hk] at h
    simp only [List.length_singleton] at h
    rw [append_u8_ok _ _ _ h]
  · rename_i hk
    rw [if_neg hk] at h
    simp only [List.length_cons, List.length_nil] at h
    rw [Outcome.ret_true_andThen, append_u8_ok _ _ _ (by omega), Outcome.ret_true_andThen,
      append_u8_ok _ _ _ (by simp only [Writer.append_pos, List.length_singleton]; omega),
      Writer.append_append]
    rfl

theorem varint_bytes_length_le (n : Int) : (varint_bytes n).length ≤ 3 := by
  unfold varint_bytes; split_ifs <;> simp

theorem andThen_append_u8 (end_ : Nat) (w : Writer) (bs : List Nat) (v : Int)
    (h : w.pos + bs.length + 1 ≤ end_) :
    (Outcome.ret true (w.append bs)).andThen (append_u8 end_ v)
      = .ret true (w.append (bs ++ [toU8 v])) := by
  rw [Outcome.ret_true_andThen, append_u8_ok _ _ _ (by rw [Writer.append_pos]; exact h),
    Writer.append_append]

theorem ripple_serializeVarint_fits (end_ : Nat) (n : Int) (w : Writer)
    (h0 : 0 ≤ n) (h1 : n < 918744) (hcap : w.pos + (varint_bytes n).length ≤ end_)
    (h3 : 12480 < n → w.pos + 3 < end_) :
    ripple_serializeVarint end_ n w = .ret true (w.append (varint_bytes n)) := by
  unfold ripple_serializeVarint
  unfold varint_bytes at hcap ⊢
  rw [if_neg (by omega)]
  by_cases h192 : n < 192
  · rw [if_pos h192] at hcap
    rw [if_pos h192, if_pos h192, append_u8_ok _ _ _ (by simpa using hcap)]
    have e : toU8 n = n.toNat := by simp only [toU8]; omega
    rw [e]
  · rw [if_neg h192] at hcap
    rw [if_neg h192, if_neg h192]
    by_cases h2 : n ≤ 12480
    · rw [if_pos h2] at hcap
      simp only [List.length_cons, List.length_nil] at hcap
      rw [if_pos h2, if_pos h2]
      simp only []
      rw [← Writer.append_nil w, andThen_append_u8 _ _ _ _ (by simp only [List.length_nil]; omega),
        andThen_append_u8 _ _ _ _
          (by simp only [List.length_append, List.length_cons, List.length_nil]; omega),
        Writer.append_nil]
      have e1 : toU8 (193 + (n - 193) >>> (8 : Nat)) = (193 + (n - 193) >>> (8 : Nat)).toNat := by
        simp only [toU8, Int.shiftRight_eq_div_pow]; norm_num; omega
      have e2 : toU8 (Int.land (n - 193) 0xff) = (Int.land (n - 193) 0xff).toNat := by
        simp only [toU8, land_0xff]; omega
      rw [e1, e2]
      simp only [List.nil_append, List.singleton_append]
    · rw [if_neg h2] at hcap
      simp only [List.length_cons, List.length_nil] at hcap
      have h3 := h3 (by omega)
      rw [if_neg h2, if_neg h2, if_pos h1, if_neg (not_not.mpr h3)]
      simp only []
      rw [← Writer.append_nil w, andThen_append_u8 _ _ _ _ (by simp only [List.length_nil]; omega),
        andThen_append_u8 _ _ _ _
          (by simp only [List.length_append, List.length_cons, List.length_nil]; omega),
        andThen_append_u8 _ _ _ _
          (by simp only [List.length_append, List.length_cons, List.length_nil]; omega),
        Writer.append_nil]
      have e1 : toU8 (241 + (n - 12481) >>> (16 : Nat))
          = (241 + (n - 12481) >>> (16 : Nat)).toNat := by
        simp only [toU8, Int.shiftRight_eq_div_pow]; norm_num; omega
      have e2 : toU8 (Int.land ((n - 12481) >>> (8 : Nat)) 0xff)
          = (Int.land ((n - 12481) >>> (8 : Nat)) 0xff).toNat := by
        simp only [toU8, land_0xff]; omega
      have e3 : toU8 (Int.land (n - 12481) 0xff) = (Int.land (n - 12481) 0xff).toNat := by
        simp only [toU8, land_0xff]; omega
      rw [e1, e2, e3]
      simp only [List.nil_append, List.singleton_append, List.cons_append]

theorem ripple_serializeVarint_ok (end_ : Nat) (n : Int) (w : Writer)
    (h0 : 0 ≤ n) (h1 : n < 918744) (hcap : w.pos + 4 ≤ end_) :
    ripple_serializeVarint end_ n w = .ret true (w.append (varint_bytes n)) := by
  have := varint_bytes_length_le n
  exact ripple_serializeVarint_fits end_ n w h0 h1 (by omega) (fun _ => by omega)

theorem toInt32_of_lt (n : Nat) (h : n < 2 ^ 31) : toInt32 n = (n : Int) := by
  unfold toInt32
  have e : n % 2 ^ 32 = n := Nat.mod_eq_of_lt (by omega)
  rw [e, if_pos h]

theorem toInt64_of_lt (n : Nat) (h : n < 2 ^ 63) : toInt64 n = (n : Int) := by
  unfold toInt64
  have e : n % 2 ^ 64 = n := Nat.mod_eq_of_lt (by omega)
  rw [e, if_pos h]

theorem int32_byte (v k : Nat) (hk : k ≤ 24) :
    toU8 (Int.land (toInt32 v >>> k) 0xff) = v % 2 ^ 32 / 2 ^ k % 256 := by
  rw [toU8_land, toU8_shr]
  have hp : (2 : Int) ^ k ∣ 2 ^ 32 := pow_dvd_pow 2 (by omega)
  have hq : (256 : Int) * 2 ^ k ∣ 2 ^ 32 := by
    have : (256 : Int) * 2 ^ k = 2 ^ (8 + k) := by rw [pow_add]; norm_num
    rw [this]; exact pow_dvd_pow 2 (by omega)
  have key : ∀ x : Int, (x - 2 ^ 32) / 2 ^ k % 256 = x / 2 ^ k % 256 := by
    intro x
    obtain ⟨c, hc⟩ := hq
    have h2 : (2 : Int) ^ 32 = 2 ^ k * (256 * c) := by rw [hc]; ring
    have hpos : (0 : Int) < 2 ^ k := by positivity
    rw [h2, show x - 2 ^ k * (256 * c) = x + 2 ^ k * (-(256 * c)) by ring,
      Int.add_mul_ediv_left _ _ (ne_of_gt hpos)]
    omega
  unfold toInt32
  split
  · norm_cast
  · rw [key]; norm_cast

theorem ripple_serializeInt32_ok (end_ : Nat) (m : FieldMapping) (v : Nat) (w : Writer)
    (hm : m.type = FT_INT32) (hcap : w.pos + (tag_bytes m).length + 4 ≤ end_) :
    ripple_serializeInt32 end_ m (toInt32 v) w
      = .ret true (w.append (tag_bytes m ++ be32 v)) := by
  unfold ripple_serializeInt32
  rw [if_neg (not_not.mpr hm), Outcome.ret_true_andThen,
    ripple_serializeType_ok _ _ _ (by omega)]
  rw [andThen_append_u8 _ _ _ _ (by omega)]
  rw [andThen_append_u8 _ _ _ _
    (by simp only [List.length_append, List.length_cons, List.length_nil]; omega)]
  rw [andThen_append_u8 _ _ _ _
    (by simp only [List.length_append, List.length_cons, List.length_nil]; omega)]
  rw [andThen_append_u8 _ _ _ _
    (by simp only [List.length_append, List.length_cons, List.length_nil]; omega)]
  have e0 := int32_byte v 0 (by omega)
  rw [Int.shiftRight_eq_div_pow] at e0
  simp only [pow_zero, Nat.cast_one, Int.ediv_one, Nat.div_one] at e0
  rw [int32_byte v 24 (by omega), int32_byte v 16 (by omega), int32_byte v 8 (by omega), e0]
  have hb : be32 v = [v % 2 ^ 32 / 2 ^ 24 % 256, v % 2 ^ 32 / 2 ^ 16 % 256,
      v % 2 ^ 32 / 2 ^ 8 % 256, v % 2 ^ 32 % 256] := by
    simp only [be32, List.cons.injEq, and_true]
    refine ⟨?_, ?_, ?_, ?_⟩ <;> omega
  rw [hb]
  simp only [List.append_assoc, List.singleton_append, List.cons_append, List.nil_append]

theorem ripple_serializeInt16_type (end_ : Nat) (w : Writer) (hcap : w.pos + 3 ≤ end_) :
    ripple_serializeInt16 end_ FM_type 0 w = .ret true (w.append [0x12, 0x00, 0x00]) := by
  unfold ripple_serializeInt16
  have ht : tag_bytes FM_type = [0x12] := by decide
  rw [if_neg (by decide), Outcome.ret_true_andThen,
    ripple_serializeType_ok _ _ _ (by rw [ht]; simpa using (by omega : w.pos + 1 ≤ end_))]
  rw [andThen_append_u8 _ _ _ _ (by rw [ht]; simp only [List.length_singleton]; omega)]
  rw [andThen_append_u8 _ _ _ _
    (by rw [ht]; simp only [List.length_append, List.length_cons, List.length_nil]; omega)]
  rw [ht]
  have e1 : toU8 (Int.land ((0 : Int) >>> (8 : Nat)) 0xff) = 0 := by decide
  have e2 : toU8 (Int.land (0 : Int) 0xff) = 0 := by decide
  rw [e1, e2]
  rfl

theorem ripple_serializeBytes_ok (end_ : Nat) (bytes : List Nat) (count : Nat) (w : Writer)
    (hc : count < 918744) (hlen : count ≤ bytes.length)
    (hcap : w.pos + (varint_bytes count).length + count < end_) :
    ripple_serializeBytes end_ bytes count w
      = .ret true (w.append (varint_bytes count ++ bytes.take count)) := by
  unfold ripple_serializeBytes
  rw [toInt32_of_lt count (by omega), Outcome.ret_true_andThen,
    ripple_serializeVarint_fits _ _ _ (by omega) (by omega) (by omega) (fun h => by omega)]
  simp only [Bool.not_true, Bool.false_or, Writer.append_pos, ge_iff_le]
  rw [if_neg (by simp only [decide_eq_true_eq]; omega)]
  have ht : (bytes.take count).length = count := by
    rw [List.length_take]; omega
  have hm : memcpy_advance bytes count (w.append (varint_bytes count))
      = (w.append (varint_bytes count)).append (bytes.take count) := by
    simp only [memcpy_advance, Writer.append, ht]
  rw [hm, Writer.append_append]

theorem ripple_serializeVL_ok (end_ : Nat) (m : FieldMapping) (bytes : List Nat) (count : Nat)
    (w : Writer) (hc : count < 918744) (hlen : count ≤ bytes.length)
    (hcap : w.pos + (tag_bytes m).length + (varint_bytes count).length + count < end_) :
    ripple_serializeVL end_ m bytes count w
      = .ret true (w.append (tag_bytes m ++ (varint_bytes count ++ bytes.take count))) := by
  unfold ripple_serializeVL
  rw [Outcome.ret_true_andThen, ripple_serializeType_ok _ _ _ (by omega),
    Outcome.ret_true_andThen,
    ripple_serializeBytes_ok _ _ _ _ hc hlen (by rw [Writer.append_pos]; omega),
    Writer.append_append]

theorem andThenIf_step (w : Writer) (acc bs : List Nat) (c : Bool) (f : Writer → Outcome)
    (hf : c = true → f (w.append acc) = .ret true ((w.append acc).append bs)) :
    (Outcome.ret true (w.append acc)).andThenIf c f
      = .ret true (w.append (acc ++ (if c then bs else []))) := by
  unfold Outcome.andThenIf
  cases c with
  | false => simp
  | true => simp only [if_true, Outcome.ret_true_andThen, hf rfl, Writer.append_append]

theorem Outcome.andThenIf_false (o : Outcome) (f : Writer → Outcome) :
    o.andThenIf false f = o := rfl

theorem amount_byte (a : Int) (k : Nat) (h0 : 0 ≤ a) :
    toU8 (Int.land (a >>> k) 0xff) = a.toNat / 2 ^ k % 256 := by
  obtain ⟨n, rfl⟩ := Int.eq_ofNat_of_zero_le h0
  rw [toU8_land, toU8_shr]
  simp only [Int.toNat_ofNat]
  norm_cast

theorem ripple_serializeAmount_ok (end_ : Nat) (m : FieldMapping) (a : Int) (w : Writer)
    (h0 : 0 ≤ a) (h1 : a ≤ 100000000000)
    (hcap : w.pos + (tag_bytes m).length + 8 ≤ end_) :
    ripple_serializeAmount end_ m a w
      = .ret true (w.append (tag_bytes m ++ be64 (a.toNat + 2 ^ 62))) := by
  unfold ripple_serializeAmount
  rw [Outcome.ret_true_andThen, ripple_serializeType_ok _ _ _ (by omega)]
  simp only []
  rw [if_neg (not_not.mpr h0), if_neg (not_not.mpr h1)]
  have hmsb : toU8 (Int.land (a >>> (7 * 8 : Nat)) 0xff) = 0 := by
    rw [amount_byte a _ h0]
    have hn : a.toNat ≤ 100000000000 := by omega
    generalize a.toNat = n at hn
    norm_num
    omega
  rw [hmsb]
  rw [andThen_append_u8 _ _ _ _ (by omega)]
  rw [andThen_append_u8 _ _ _ _ (by simp only [List.length_append, List.length_cons, List.length_nil]; omega)]
  rw [andThen_append_u8 _ _ _ _ (by simp only [List.length_append, List.length_cons, List.length_nil]; omega)]
  rw [andThen_append_u8 _ _ _ _ (by simp only [List.length_append, List.length_cons, List.length_nil]; omega)]
  rw [andThen_append_u8 _ _ _ _ (by simp only [List.length_append, List.length_cons, List.length_nil]; omega)]
  rw [andThen_append_u8 _ _ _ _ (by simp only [List.length_append, List.length_cons, List.length_nil]; omega)]
  rw [andThen_append_u8 _ _ _ _ (by simp only [List.length_append, List.length_cons, List.length_nil]; omega)]
  rw [andThen_append_u8 _ _ _ _ (by simp only [List.length_append, List.length_cons, List.length_nil]; omega)]
  have e : toU8 (Int.land a 0xff) = a.toNat % 256 := by
    obtain ⟨k, rfl⟩ := Int.eq_ofNat_of_zero_le h0
    rw [toU8_land, toU8_natCast, Int.toNat_ofNat]
  rw [amount_byte a _ h0, amount_byte a _ h0, amount_byte a _ h0, amount_byte a _ h0,
    amount_byte a _ h0, amount_byte a _ h0, e]
  have hn : a.toNat ≤ 100000000000 := by omega
  generalize a.toNat = n at hn
  have hm : toU8 (((0 &&& 0x7f ||| 0x40 : Nat)) : Int) = 64 := by decide
  rw [hm]
  have hb : be64 (n + 2 ^ 62) = [64, n / 2 ^ (6 * 8) % 256, n / 2 ^ (5 * 8) % 256,
      n / 2 ^ (4 * 8) % 256, n / 2 ^ (3 * 8) % 256, n / 2 ^ (2 * 8) % 256,
      n / 2 ^ (1 * 8) % 256, n % 256] := by
    simp only [be64, List.cons.injEq, and_true]
    norm_num
    refine ⟨?_, ?_, ?_, ?_, ?_, ?_, ?_, ?_⟩ <;> omega
  rw [hb]
  simp only [List.append_assoc, List.singleton_append, List.cons_append, List.nil_append]

theorem length_step (acc bs : List Nat) (c : Bool) (n k : Nat) (ha : acc.length = n)
    (hb : bs.length = k) :
    (acc ++ (if c then bs else [])).length = n + (if c then k else 0) := by
  cases c <;> simp [ha, hb]

/-! ## C1: the layout of a serialized transaction -/

theorem be32_length (n : Nat) : (be32 n).length = 4 := rfl

theorem be64_length (n : Nat) : (be64 n).length = 8 := rfl

theorem opt_field_eq (t count : Nat) (blob : Option (List Nat))
    (h : ∀ b, blob = some b → b.length = count) :
    opt_field [t, count] blob
      = if blob.isSome then [t] ++ ([count] ++ (blob.getD []).take count) else [] := by
  cases blob with
  | none => rfl
  | some b =>
    have hb := h b rfl
    simp only [opt_field, Option.isSome_some, if_true, Option.getD_some]
    rw [List.take_of_length_le (by omega)]
    rfl

theorem tx_fields_length (tx : RippleSignTx) (t : Nat) (pubkey sig : Option (List Nat))
    (hpk : ∀ pk, pubkey = some pk → pk.length = 33)
    (hsig : ∀ s, sig = some s → s.length = 64) :
    (tx_fields tx t pubkey sig).length = tx_size tx pubkey sig := by
  have h1 : (opt_field [0x73, 33] pubkey).length = if pubkey.isSome then 35 else 0 := by
    cases pubkey with
    | none => rfl
    | some pk =>
      have := hpk pk rfl
      simp only [opt_field, List.length_append, List.length_cons, List.length_nil,
        List.length_take, Option.isSome_some, if_true]
      omega
  have h2 : (opt_field [0x74, 64] sig).length = if sig.isSome then 66 else 0 := by
    cases sig with
    | none => rfl
    | some s =>
      have := hsig s rfl
      simp only [opt_field, List.length_append, List.length_cons, List.length_nil,
        List.length_take, Option.isSome_some, if_true]
      omega
  simp only [tx_fields, tx_size, List.length_append, h1, h2, apply_ite List.length,
    List.length_cons, List.length_nil, be32_length, be64_length]

theorem ripple_serialize_fields (env : Env) (end_ : Nat) (tx : RippleSignTx)
    (pubkey sig : Option (List Nat)) (w : Writer)
    (hamt : tx.payment.has_amount = true → tx.payment.amount ≤ 100000000000)
    (hfee : tx.has_fee = true → tx.fee ≤ 100000000000)
    (hdst : tx.payment.has_destination = false)
    (hpk : ∀ pk, pubkey = some pk → pk.length = 33)
    (hsig : ∀ s, sig = some s → s.length = 64)
    (hcap : w.pos + tx_size tx pubkey sig < end_) :
    ripple_serialize env end_ tx none pubkey sig w
      = .ret true (w.append (tx_fields tx 0x61 pubkey sig)) := by
  have hpk2 : pubkey.isSome = true → 33 ≤ (pubkey.getD []).length := by
    intro h
    obtain ⟨pk, rfl⟩ := Option.isSome_iff_exists.mp h
    exact le_of_eq (hpk pk rfl).symm
  have hsig2 : sig.isSome = true → 64 ≤ (sig.getD []).length := by
    intro h
    obtain ⟨s, rfl⟩ := Option.isSome_iff_exists.mp h
    exact le_of_eq (hsig s rfl).symm
  have t_flags : tag_bytes FM_flags = [0x22] := by decide
  have t_seq : tag_bytes FM_sequence = [0x24] := by decide
  have t_dtag : tag_bytes FM_destinationTag = [0x2E] := by decide
  have t_lls : tag_bytes FM_lastLedgerSequence = [0x20, 0x1B] := by decide
  have t_amt : tag_bytes FM_amount = [0x61] := by decide
  have t_pk : tag_bytes FM_signingPubKey = [0x73] := by decide
  have t_sig : tag_bytes FM_txnSignature = [0x74] := by decide
  have v33 : varint_bytes ((33 : Nat) : Int) = [33] := by decide
  have v64 : varint_bytes ((64 : Nat) : Int) = [64] := by decide
  unfold tx_size at hcap
  unfold tx_fields
  rw [opt_field_eq 0x73 33 pubkey hpk, opt_field_eq 0x74 64 sig hsig]
  unfold ripple_serialize
  simp only []
  rw [show (none : Option String).isSome = false from rfl, hdst, Outcome.andThenIf_false,
    Outcome.andThenIf_false]
  rw [Outcome.ret_true_andThen, ripple_serializeInt16_type _ _ (by omega)]
  have l1 := length_step [0x12, 0x00, 0x00] (0x22 :: be32 tx.flags) tx.has_flags 3 5 rfl rfl
  rw [andThenIf_step w _ (0x22 :: be32 tx.flags) _ _ (fun hc => by
    rw [ripple_serializeInt32_ok _ _ _ _ rfl (by
      rw [t_flags]
      simp only [Writer.append_pos, List.length_cons, List.length_nil]
      have h := hcap
      simp only [hc, if_true] at h
      omega), t_flags]
    rfl)]
  have l2 := length_step _ (0x24 :: be32 tx.sequence) tx.has_sequence _ 5 l1 rfl
  rw [andThenIf_step w _ (0x24 :: be32 tx.sequence) _ _ (fun hc => by
    rw [ripple_serializeInt32_ok _ _ _ _ rfl (by
      rw [t_seq]
      simp only [Writer.append_pos, List.length_cons, List.length_nil]
      rw [l1]
      have h := hcap
      simp only [hc, if_true] at h
      omega), t_seq]
    rfl)]
  have l3 := length_step _ (0x2E :: be32 tx.payment.destination_tag)
    tx.payment.has_destination_tag _ 5 l2 rfl
  rw [andThenIf_step w _ (0x2E :: be32 tx.payment.destination_tag) _ _ (fun hc => by
    rw [ripple_serializeInt32_ok _ _ _ _ rfl (by
      rw [t_dtag]
      simp only [Writer.append_pos, List.length_cons, List.length_nil]
      rw [l2]
      have h := hcap
      simp only [hc, if_true] at h
      omega), t_dtag]
    rfl)]
  have l4 := length_step _ (0x20 :: 0x1B :: be32 tx.last_ledger_sequence)
    tx.has_last_ledger_sequence _ 6 l3 rfl
  rw [andThenIf_step w _ (0x20 :: 0x1B :: be32 tx.last_ledger_sequence) _ _ (fun hc => by
    rw [ripple_serializeInt32_ok _ _ _ _ rfl (by
      rw [t_lls]
      simp only [Writer.append_pos, List.length_cons, List.length_nil]
      rw [l3]
      have h := hcap
      simp only [hc, if_true] at h
      omega), t_lls]
    rfl)]
  have l5 := length_step _ (0x61 :: be64 (tx.payment.amount + 2 ^ 62))
    tx.payment.has_amount _ 9 l4 rfl
  rw [andThenIf_step w _ (0x61 :: be64 (tx.payment.amount + 2 ^ 62)) _ _ (fun hc => by
    have ha := hamt hc
    rw [toInt64_of_lt _ (by omega),
      ripple_serializeAmount_ok _ _ _ _ (Int.ofNat_nonneg _) (by omega) (by
        rw [t_amt]
        simp only [Writer.append_pos, List.length_cons, List.length_nil]
        rw [l4]
        have h := hcap
        simp only [hc, if_true] at h
        omega), t_amt, Int.toNat_ofNat, List.singleton_append])]
  have l6 := length_step _ (0x61 :: be64 (tx.fee + 2 ^ 62)) tx.has_fee _ 9 l5 rfl
  rw [andThenIf_step w _ (0x61 :: be64 (tx.fee + 2 ^ 62)) _ _ (fun hc => by
    have ha := hfee hc
    rw [toInt64_of_lt _ (by omega),
      ripple_serializeAmount_ok _ _ _ _ (Int.ofNat_nonneg _) (by omega) (by
        rw [t_amt]
        simp only [Writer.append_pos, List.length_cons, List.length_nil]
        rw [l5]
        have h := hcap
        simp only [hc, if_true] at h
        omega), t_amt, Int.toNat_ofNat, List.singleton_append])]
  rw [andThenIf_step w _ ([0x73] ++ ([33] ++ (pubkey.getD []).take 33)) _ _ (fun hc => by
    rw [ripple_serializeVL_ok _ _ _ _ _ (by decide) (hpk2 hc) (by
      rw [t_pk, v33]
      simp only [Writer.append_pos, List.length_cons, List.length_nil]
      rw [l6]
      have h := hcap
      simp only [hc, if_true] at h
      omega), t_pk, v33])]
  have l7 : (([0x12, 0x00, 0x00] ++ (if tx.has_flags = true then 0x22 :: be32 tx.flags else [])
      ++ (if tx.has_sequence = true then 0x24 :: be32 tx.sequence else [])
      ++ (if tx.payment.has_destination_tag = true
            then 0x2E :: be32 tx.payment.destination_tag else [])
      ++ (if tx.has_last_ledger_sequence = true
            then 0x20 :: 0x1B :: be32 tx.last_ledger_sequence else [])
      ++ (if tx.payment.has_amount = true
            then 0x61 :: be64 (tx.payment.amount + 2 ^ 62) else [])
      ++ (if tx.has_fee = true then 0x61 :: be64 (tx.fee + 2 ^ 62) else []))
      ++ (if pubkey.isSome = true then [0x73] ++ ([33] ++ (pubkey.getD []).take 33) else [])).length
      ≤ 3 + (if tx.has_flags = true then 5 else 0) + (if tx.has_sequence = true then 5 else 0)
        + (if tx.payment.has_destination_tag = true then 5 else 0)
        + (if tx.has_last_ledger_sequence = true then 6 else 0)
        + (if tx.payment.has_amount = true then 9 else 0)
        + (if tx.has_fee = true then 9 else 0) + (if pubkey.isSome = true then 35 else 0) := by
    rw [List.length_append, l6]
    cases pubkey.isSome
    · simp
    · simp only [if_true, List.length_append, List.length_cons, List.length_nil,
        List.length_take]
      omega
  rw [andThenIf_step w _ ([0x74] ++ ([64] ++ (sig.getD []).take 64)) _ _ (fun hc => by
    rw [ripple_serializeVL_ok _ _ _ _ _ (by decide) (hsig2 hc) (by
      rw [t_sig, v64]
      simp only [Writer.append_pos, List.length_cons, List.length_nil]
      have h := hcap
      simp only [hc, if_true] at h
      omega), t_sig, v64])]

/-- C1, as stated, fails: with an amount of 100,000,000,001 drops present and
64 bytes of room, `ripple_serialize` does not succeed; the range assertion of
`ripple_serializeAmount` ends the run after the tag 61 of the Amount field. -/
theorem ripple_serialize_large_amount_aborts :
    ripple_serialize plain_env 64 tx_amount_too_large none none none (zero_writer 64)
      = .abort ⟨[0x12, 0x00, 0x00, 0x61] ++ List.replicate 60 0, 4⟩ := by
  decide

/-- C1 (amended). For every request whose amount and fee, when present, are at
most 100,000,000,000 and whose destination is absent, with no source address,
an optional public key of 33 bytes and an optional signature of 64 bytes, and
a destination with at least one byte more than the output needs,
`ripple_serialize` succeeds and its output is exactly the concatenation, in
this order and with nothing in between, of TransactionType (12 00 00), Flags,
Sequence, DestinationTag, LastLedgerSequence, Amount, Fee (one tag byte of
type Amount and the eight amount bytes), SigningPubKey and TxnSignature; an
absent field contributes no bytes. -/
theorem ripple_serialize_layout (env : Env) (end_ : Nat) (tx : RippleSignTx)
    (pubkey sig : Option (List Nat)) (w : Writer)
    (hamt : tx.payment.has_amount = true → tx.payment.amount ≤ 100000000000)
    (hfee : tx.has_fee = true → tx.fee ≤ 100000000000)
    (hdst : tx.payment.has_destination = false)
    (hpk : ∀ pk, pubkey = some pk → pk.length = 33)
    (hsig : ∀ s, sig = some s → s.length = 64)
    (hcap : w.pos + tx_size tx pubkey sig < end_) (hmem : end_ ≤ w.mem.length) :
    ∃ feeTag : Nat, feeTag / 16 = FT_AMOUNT ∧
      ripple_serialize env end_ tx none pubkey sig w
        = .ret true (w.appended (tx_fields tx feeTag pubkey sig)) := by
  refine ⟨0x61, by decide, ?_⟩
  rw [ripple_serialize_fields env end_ tx pubkey sig w hamt hfee hdst hpk hsig hcap,
    Writer.append_eq_appended]
  rw [tx_fields_length tx _ pubkey sig hpk hsig]
  omega

/-- C1 (amended), at the request of the specification's example: sequence 1
and amount 100 give 12 00 00 24 00 00 00 01 61 40 00 00 00 00 00 00 64. -/
theorem ripple_serialize_layout_witness :
    ((tx_seq1_amount100.payment.has_amount = true
        → tx_seq1_amount100.payment.amount ≤ 100000000000)
      ∧ (tx_seq1_amount100.has_fee = true → tx_seq1_amount100.fee ≤ 100000000000)
      ∧ tx_seq1_amount100.payment.has_destination = false
      ∧ (zero_writer 32).pos + tx_size tx_seq1_amount100 none none < 32
      ∧ 32 ≤ (zero_writer 32).mem.length)
    ∧ (∃ feeTag : Nat, feeTag / 16 = FT_AMOUNT ∧
        ripple_serialize plain_env 32 tx_seq1_amount100 none none none (zero_writer 32)
          = .ret true ((zero_writer 32).appended (tx_fields tx_seq1_amount100 feeTag none none)))
    ∧ ripple_serialize plain_env 32 tx_seq1_amount100 none none none (zero_writer 32)
        = .ret true ⟨[0x12, 0x00, 0x00, 0x24, 0x00, 0x00, 0x00, 0x01,
            0x61, 0x40, 0x00, 0x00, 0x00, 0x00, 0x00, 0x00, 0x64] ++ List.replicate 15 0, 17⟩ :=
  ⟨⟨by decide, by decide, by decide, by decide, by decide⟩,
    ripple_serialize_layout plain_env 32 tx_seq1_amount100 none none (zero_writer 32)
      (by decide) (by decide) (by decide) (fun _ h => nomatch h) (fun _ h => nomatch h)
      (by decide) (by decide),
    by decide⟩

/-! ## C2 and C3: the address field -/

/-- C2 (code at the failing input). For an address whose checked decoding
yields 21 bytes (a version byte and a 20-byte hash), `ripple_serializeAddress`
takes the branch for a decoded length other than 20: it returns success, moves
the cursor by 20 and stores nothing, neither the tag of the mapping nor the
length byte 0x14 nor the hash. -/
theorem ripple_serializeAddress_skips_valid (env : Env) (end_ : Nat) (m : FieldMapping)
    (address : String) (w : Writer)
    (h : (env.base58_decode_check address).length = 21) :
    ripple_serializeAddress env end_ m address w = .ret true ⟨w.mem, w.pos + 20⟩ := by
  unfold ripple_serializeAddress
  simp only []
  rw [if_pos (by omega)]

/-- C2, evaluated: the decoded bytes are 0, 1, ..., 20 and the destination is
32 zero bytes; the call reports success with the cursor at 20 and the
destination still all zero, where the field 81 14 01 02 ... 14 (cursor 22) was
due. -/
theorem ripple_serializeAddress_skips_valid_witness :
    (plain_env.base58_decode_check "rAccount").length = 21
    ∧ ripple_serializeAddress plain_env 32 FM_account "rAccount" (zero_writer 32)
        = .ret true ⟨List.replicate 32 0, 20⟩
    ∧ ripple_serializeAddress plain_env 32 FM_account "rAccount" (zero_writer 32)
        ≠ .ret true ((zero_writer 32).appended
            ([0x81, 0x14] ++ (plain_env.base58_decode_check "rAccount").drop 1)) :=
  ⟨by decide,
    ripple_serializeAddress_skips_valid plain_env 32 FM_account "rAccount" (zero_writer 32)
      (by decide),
    by decide⟩

/-- C3 (code at the failing input). For an address whose checked decoding
fails or yields any number of bytes other than 20, `ripple_serializeAddress`
returns success all the same: the cursor moves by 20 and the 20 bytes under it
are left as they were. -/
theorem ripple_serializeAddress_ignores_decode_error (env : Env) (end_ : Nat)
    (m : FieldMapping) (address : String) (w : Writer)
    (h : (env.base58_decode_check address).length ≠ 20) :
    ripple_serializeAddress env end_ m address w = .ret true ⟨w.mem, w.pos + 20⟩ := by
  unfold ripple_serializeAddress
  simp only []
  rw [if_pos h]

/-- C3, evaluated with a decoder that rejects the address (it returns 0):
`ripple_serializeAddress` reports success with the cursor 20 bytes further,
and a `ripple_serialize` call with that address as destination reports
success as well, its output being 12 00 00 followed by 20 untouched bytes. -/
theorem ripple_serializeAddress_ignores_decode_error_witness :
    (rejecting_env.base58_decode_check "rDestination").length ≠ 20
    ∧ ripple_serializeAddress rejecting_env 64 FM_destination "rDestination" (zero_writer 64)
        = .ret true ⟨List.replicate 64 0, 20⟩
    ∧ ripple_serialize rejecting_env 64 tx_only_destination none none none (zero_writer 64)
        = .ret true ⟨[0x12, 0x00, 0x00] ++ List.replicate 61 0, 23⟩
    ∧ ripple_serialize rejecting_env 64 tx_only_destination (some "rSource") none none
          (zero_writer 64)
        = .ret true ⟨[0x12, 0x00, 0x00] ++ List.replicate 61 0, 43⟩ :=
  ⟨by decide,
    ripple_serializeAddress_ignores_decode_error rejecting_env 64 FM_destination
      "rDestination" (zero_writer 64) (by decide),
    by decide, by decide⟩

/-! ## C4: the tag of the fee -/

/-- C4 (code at the failing input). With amount 100 and fee 10 present,
`ripple_serialize` emits the fee under the tag byte 61 of the Amount entry and
not under the tag byte 68 of the Fee entry of the catalog: the output is
12 00 00, 61 40 00 00 00 00 00 00 64, 61 40 00 00 00 00 00 00 0A, so the two
tags are equal and not increasing. -/
theorem ripple_serialize_fee_tag :
    ripple_serialize plain_env 32 tx_amount100_fee10 none none none (zero_writer 32)
        = .ret true ⟨[0x12, 0x00, 0x00,
            0x61, 0x40, 0x00, 0x00, 0x00, 0x00, 0x00, 0x00, 0x64,
            0x61, 0x40, 0x00, 0x00, 0x00, 0x00, 0x00, 0x00, 0x0A] ++ List.replicate 11 0, 21⟩
    ∧ tag_bytes FM_fee = [0x68]
    ∧ tag_bytes FM_amount = [0x61] := by
  decide

/-! ## C5 and C6: the signing routine -/

/-- C5 (code at the failing input). The DER encoding has 70 bytes and
`resp.signature.size` is 70, yet the TxnSignature field of the final
transaction (at offset 57) is 74 40 followed by the first 64 DER bytes only:
the length byte is 0x40 and not 0x46, and the six bytes after the 64 are zero,
not the end of the DER encoding. -/
theorem ripple_signTx_truncates_der :
    (ripple_signTx (sign_env 0 256 258) demo_node tx_seq1_amount100
        (clear_resp 256)).resp.has_serialized_tx = true
    ∧ (ripple_signTx (sign_env 0 256 258) demo_node tx_seq1_amount100
        (clear_resp 256)).resp.signature_size = 70
    ∧ (ripple_signTx (sign_env 0 256 258) demo_node tx_seq1_amount100
        (clear_resp 256)).resp.signature_bytes.take 70 = der70
    ∧ ((ripple_signTx (sign_env 0 256 258) demo_node tx_seq1_amount100
        (clear_resp 256)).resp.serialized_tx_bytes.drop 57).take 66
        = [0x74, 0x40] ++ der70.take 64
    ∧ ((ripple_signTx (sign_env 0 256 258) demo_node tx_seq1_amount100
        (clear_resp 256)).resp.serialized_tx_bytes.drop 123).take 6
        = [0, 0, 0, 0, 0, 0]
    ∧ der70.drop 64 = [0x22, 0x22, 0x22, 0x22, 0x22, 0x22] := by
  decide

/-- C6 (code at the failing input). The signing primitive returns the failure
code 1, and `ripple_signTx`, started on a response with both flags clear, ends
with `has_signature` and `has_serialized_tx` set. -/
theorem ripple_signTx_ignores_sign_failure :
    ((sign_env 1 256 258).ecdsa_sign_digest demo_node.private_key
        (List.replicate 32 0x11)).1 ≠ 0
    ∧ (clear_resp 256).has_signature = false
    ∧ (clear_resp 256).has_serialized_tx = false
    ∧ (ripple_signTx (sign_env 1 256 258) demo_node tx_seq1_amount100
        (clear_resp 256)).aborted = false
    ∧ (ripple_signTx (sign_env 1 256 258) demo_node tx_seq1_amount100
        (clear_resp 256)).resp.has_signature = true
    ∧ (ripple_signTx (sign_env 1 256 258) demo_node tx_seq1_amount100
        (clear_resp 256)).resp.has_serialized_tx = true := by
  decide

/-! ## C8: the amount encoding -/

theorem be64_value (n : Nat) (h : n < 2 ^ 64) : be_value (be64 n) = n := by
  simp only [be_value, be64, List.foldl_cons, List.foldl_nil]
  omega

theorem be64_head (x : Nat) : (be64 x).headD 0 = x / 2 ^ 56 % 256 := rfl

/-- C8. For every drop count `a` with `0 ≤ a ≤ 100,000,000,000`, every field
mapping `m` and a writer with room for the tag and eight more bytes,
`ripple_serializeAmount` returns success and appends the tag of `m` followed by
exactly eight bytes whose big-endian value is `a + 2 ^ 62`: in the first of
them bit 0x80 is clear and bit 0x40 is set, and the remaining 62 bits are the
drop count. -/
theorem ripple_serializeAmount_encodes (end_ : Nat) (m : FieldMapping) (a : Int) (w : Writer)
    (h0 : 0 ≤ a) (h1 : a ≤ 100000000000)
    (hcap : w.pos + (tag_bytes m).length + 8 ≤ end_) (hmem : end_ ≤ w.mem.length) :
    ripple_serializeAmount end_ m a w
        = .ret true (w.appended (tag_bytes m ++ be64 (a.toNat + 2 ^ 62)))
      ∧ (be64 (a.toNat + 2 ^ 62)).length = 8
      ∧ be_value (be64 (a.toNat + 2 ^ 62)) = a.toNat + 2 ^ 62
      ∧ (be64 (a.toNat + 2 ^ 62)).headD 0 &&& 0x80 = 0
      ∧ (be64 (a.toNat + 2 ^ 62)).headD 0 &&& 0x40 = 0x40
      ∧ be_value (be64 (a.toNat + 2 ^ 62)) % 2 ^ 62 = a.toNat := by
  have hn : a.toNat ≤ 100000000000 := by omega
  have hv : be_value (be64 (a.toNat + 2 ^ 62)) = a.toNat + 2 ^ 62 :=
    be64_value _ (by omega)
  have hhead : (be64 (a.toNat + 2 ^ 62)).headD 0 = 0x40 := by
    have h := be64_head (a.toNat + 2 ^ 62)
    omega
  refine ⟨?_, by simp only [be64, List.length_cons, List.length_nil], hv, ?_, ?_, ?_⟩
  · rw [ripple_serializeAmount_ok _ _ _ _ h0 h1 hcap]
    rw [Writer.append_eq_appended]
    simp only [List.length_append, be64, List.length_cons, List.length_nil]
    omega
  · rw [hhead]; decide
  · rw [hhead]; decide
  · rw [hv]; omega

/-- C8, at the two drop counts the specification names: 0 gives
40 00 00 00 00 00 00 00 and 100,000,000,000 gives 40 00 00 17 48 76 E8 00
(after the tag 61 of the Amount field). -/
theorem ripple_serializeAmount_encodes_witness :
    ((0 : Int) ≤ 100000000000 ∧ (100000000000 : Int) ≤ 100000000000
      ∧ (zero_writer 16).pos + (tag_bytes FM_amount).length + 8 ≤ 16
      ∧ 16 ≤ (zero_writer 16).mem.length)
    ∧ ripple_serializeAmount 16 FM_amount 100000000000 (zero_writer 16)
        = .ret true ⟨[0x61, 0x40, 0x00, 0x00, 0x17, 0x48, 0x76, 0xE8, 0x00,
            0, 0, 0, 0, 0, 0, 0], 9⟩
    ∧ ripple_serializeAmount 16 FM_amount 0 (zero_writer 16)
        = .ret true ⟨[0x61, 0x40, 0x00, 0x00, 0x00, 0x00, 0x00, 0x00, 0x00,
            0, 0, 0, 0, 0, 0, 0], 9⟩ := by
  refine ⟨⟨by decide, by decide, by decide, by decide⟩, ?_, ?_⟩
  · rw [(ripple_serializeAmount_encodes 16 FM_amount 100000000000 (zero_writer 16)
      (by decide) (by decide) (by decide) (by decide)).1]
    decide
  · rw [(ripple_serializeAmount_encodes 16 FM_amount 0 (zero_writer 16)
      (by decide) (by decide) (by decide) (by decide)).1]
    decide

/-! ## C9: amounts outside the supported range -/

theorem append_u8_returns (end_ : Nat) (v : Int) (w : Writer) :
    ∃ ok w1, append_u8 end_ v w = .ret ok w1 := by
  unfold append_u8
  split
  · exact ⟨false, w, rfl⟩
  · exact ⟨true, _, rfl⟩

theorem ripple_serializeType_returns (end_ : Nat) (m : FieldMapping) (w : Writer) :
    ∃ ok w1, ripple_serializeType end_ m w = .ret ok w1 := by
  unfold ripple_serializeType
  split
  · exact append_u8_returns _ _ _
  · rw [Outcome.ret_true_andThen]
    obtain ⟨ok, w1, h1⟩ := append_u8_returns end_ ((m.type <<< 4 : Nat) : Int) w
    rw [h1]
    cases ok with
    | false => exact ⟨false, w1, rfl⟩
    | true =>
      rw [Outcome.ret_true_andThen]
      exact append_u8_returns _ _ _

/-- C9, as stated, fails: for 100,000,000,001 drops `ripple_serializeAmount`
does not return failure with the writer untouched; the tag byte 61 has been
appended and the range assertion ends the run. -/
theorem ripple_serializeAmount_large_aborts :
    ripple_serializeAmount 16 FM_amount 100000000001 (zero_writer 16)
        = .abort ⟨[0x61] ++ List.replicate 15 0, 1⟩
    ∧ ripple_serializeAmount 16 FM_amount 100000000001 (zero_writer 16)
        ≠ .ret false (zero_writer 16) := by
  decide

/-- C9 (amended). For every drop count outside [0, 100,000,000,000],
`ripple_serializeAmount` does not return to its caller: once
`ripple_serializeType` has run for the tag, a range assertion fails and the
run ends there, with the writer as `ripple_serializeType` left it, so none of
the eight value bytes is written. -/
theorem ripple_serializeAmount_out_of_range (end_ : Nat) (m : FieldMapping) (a : Int)
    (w : Writer) (h : a < 0 ∨ 100000000000 < a) :
    ∃ ok w1, ripple_serializeType end_ m w = .ret ok w1
      ∧ ripple_serializeAmount end_ m a w = .abort w1 := by
  obtain ⟨ok, w1, h1⟩ := ripple_serializeType_returns end_ m w
  refine ⟨ok, w1, h1, ?_⟩
  unfold ripple_serializeAmount
  rw [Outcome.ret_true_andThen, h1]
  simp only []
  by_cases h0 : a ≥ 0
  · rw [if_neg (not_not.mpr h0), if_pos (by omega)]
  · rw [if_pos h0]

/-- C9 (amended), at 100,000,000,001 drops and at -1. -/
theorem ripple_serializeAmount_out_of_range_witness :
    (((100000000001 : Int) < 0 ∨ (100000000000 : Int) < 100000000001)
      ∧ ((-1 : Int) < 0 ∨ (100000000000 : Int) < -1))
    ∧ (∃ ok w1, ripple_serializeType 16 FM_amount (zero_writer 16) = .ret ok w1
        ∧ ripple_serializeAmount 16 FM_amount 100000000001 (zero_writer 16) = .abort w1)
    ∧ (∃ ok w1, ripple_serializeType 16 FM_amount (zero_writer 16) = .ret ok w1
        ∧ ripple_serializeAmount 16 FM_amount (-1) (zero_writer 16) = .abort w1) :=
  ⟨⟨by decide, by decide⟩,
    ripple_serializeAmount_out_of_range 16 FM_amount 100000000001 (zero_writer 16)
      (by decide),
    ripple_serializeAmount_out_of_range 16 FM_amount (-1) (zero_writer 16) (by decide)⟩

/-! ## C10: the length encoding -/

/-- C10. For every length `n` with `0 ≤ n < 918744` and a writer with at least
four bytes left, `ripple_serializeVarint` returns success and appends exactly
the bytes of the three-tier encoding: the byte `n` below 192, the two bytes
`193 + ((n-193)>>8)`, `(n-193)&0xff` up to 12480, and the three bytes
`241 + ((n-12481)>>16)`, `((n-12481)>>8)&0xff`, `(n-12481)&0xff` above. -/
theorem ripple_serializeVarint_encodes (end_ : Nat) (n : Int) (w : Writer)
    (h0 : 0 ≤ n) (h1 : n < 918744)
    (hcap : w.pos + 4 ≤ end_) (hmem : end_ ≤ w.mem.length) :
    ripple_serializeVarint end_ n w = .ret true (w.appended (varint_bytes n)) := by
  rw [ripple_serializeVarint_ok _ _ _ h0 h1 hcap, Writer.append_eq_appended]
  have := varint_bytes_length_le n
  omega

/-- C10, at the lengths the specification names: 0 gives 00, 191 gives BF,
12480 gives F0 FF, 12481 gives F1 00 00 and 918743 gives FE D4 16. -/
theorem ripple_serializeVarint_encodes_witness :
    ((0 : Int) ≤ 918743 ∧ (918743 : Int) < 918744
      ∧ (zero_writer 4).pos + 4 ≤ 4 ∧ 4 ≤ (zero_writer 4).mem.length)
    ∧ ripple_serializeVarint 4 918743 (zero_writer 4) = .ret true ⟨[0xFE, 0xD4, 0x16, 0], 3⟩
    ∧ ripple_serializeVarint 4 0 (zero_writer 4) = .ret true ⟨[0x00, 0, 0, 0], 1⟩
    ∧ ripple_serializeVarint 4 191 (zero_writer 4) = .ret true ⟨[0xBF, 0, 0, 0], 1⟩
    ∧ ripple_serializeVarint 4 12480 (zero_writer 4) = .ret true ⟨[0xF0, 0xFF, 0, 0], 2⟩
    ∧ ripple_serializeVarint 4 12481 (zero_writer 4)
        = .ret true ⟨[0xF1, 0x00, 0x00, 0], 3⟩ := by
  refine ⟨⟨by decide, by decide, by decide, by decide⟩, ?_, ?_, ?_, ?_, ?_⟩
  · rw [ripple_serializeVarint_encodes 4 918743 (zero_writer 4)
      (by decide) (by decide) (by decide) (by decide)]
    decide
  · rw [ripple_serializeVarint_encodes 4 0 (zero_writer 4)
      (by decide) (by decide) (by decide) (by decide)]
    decide
  · rw [ripple_serializeVarint_encodes 4 191 (zero_writer 4)
      (by decide) (by decide) (by decide) (by decide)]
    decide
  · rw [ripple_serializeVarint_encodes 4 12480 (zero_writer 4)
      (by decide) (by decide) (by decide) (by decide)]
    decide
  · rw [ripple_serializeVarint_encodes 4 12481 (zero_writer 4)
      (by decide) (by decide) (by decide) (by decide)]
    decide

/-! ## C11 and C12: the length encoding at its boundaries -/

theorem varint_bytes_192 : varint_bytes 192 = [0xC0, 0xFF] := by
  unfold varint_bytes
  rw [if_neg (by decide), if_pos (by decide), land_0xff]
  decide

/-- C11, as stated, fails: the length 192 is written as the two bytes C0 FF,
not C1 00 (the code takes the two-byte form from 192 on, where n - 193 is -1);
C1 00 is what the length 193 gives. -/
theorem ripple_serializeVarint_192_not_C1_00 :
    ripple_serializeVarint 4 192 (zero_writer 4) ≠ .ret true ⟨[0xC1, 0x00, 0, 0], 2⟩
    ∧ ripple_serializeVarint 4 193 (zero_writer 4) = .ret true ⟨[0xC1, 0x00, 0, 0], 2⟩ := by
  constructor
  · rw [ripple_serializeVarint_ok 4 192 (zero_writer 4) (by decide) (by decide) (by decide),
      varint_bytes_192]
    decide
  · decide

/-- C11 (amended). `ripple_serializeVarint` applied to the length 192, with
at least two bytes left, succeeds and appends exactly the two bytes 0xC0,
0xFF. -/
theorem ripple_serializeVarint_192 (end_ : Nat) (w : Writer)
    (hcap : w.pos + 2 ≤ end_) (hmem : end_ ≤ w.mem.length) :
    ripple_serializeVarint end_ 192 w = .ret true (w.appended [0xC0, 0xFF]) := by
  have h := ripple_serializeVarint_fits end_ 192 w (by decide) (by decide)
    (by rw [varint_bytes_192]; exact hcap) (fun h => absurd h (by decide))
  rw [h, varint_bytes_192, Writer.append_eq_appended]
  simp only [List.length_cons, List.length_nil]
  omega

/-- C11 (amended), on a destination of four zero bytes. -/
theorem ripple_serializeVarint_192_witness :
    ((zero_writer 4).pos + 2 ≤ 4 ∧ 4 ≤ (zero_writer 4).mem.length)
    ∧ ripple_serializeVarint 4 192 (zero_writer 4)
        = .ret true ((zero_writer 4).appended [0xC0, 0xFF])
    ∧ (zero_writer 4).appended [0xC0, 0xFF] = ⟨[0xC0, 0xFF, 0, 0], 2⟩ :=
  ⟨⟨by decide, by decide⟩,
    ripple_serializeVarint_192 4 (zero_writer 4) (by decide) (by decide),
    by decide⟩

/-- C12, as stated, fails: for the length 918744 `ripple_serializeVarint`
does not return failure; the assertion on too large a value ends the run (no
byte written, cursor unchanged). -/
theorem ripple_serializeVarint_918744_aborts :
    ripple_serializeVarint 8 918744 (zero_writer 8) = .abort (zero_writer 8)
    ∧ ripple_serializeVarint 8 918744 (zero_writer 8) ≠ .ret false (zero_writer 8) := by
  decide

/-- C12 (amended). For every negative length and every writer state,
`ripple_serializeVarint` returns failure with no byte written and the cursor
unchanged; for every length from 918744 on, it does not return: the assertion
on too large a value fails, again with no byte written and the cursor
unchanged. -/
theorem ripple_serializeVarint_out_of_range (end_ : Nat) (n : Int) (w : Writer)
    (h : n < 0 ∨ 918744 ≤ n) :
    ripple_serializeVarint end_ n w = if n < 0 then .ret false w else .abort w := by
  unfold ripple_serializeVarint
  by_cases h0 : n < 0
  · rw [if_pos h0, if_pos h0]
  · have h1 : 918744 ≤ n := by omega
    rw [if_neg h0, if_neg h0, if_neg (by omega), if_neg (by omega), if_neg (by omega)]

/-- C12 (amended), at the lengths -1 and 918744. -/
theorem ripple_serializeVarint_out_of_range_witness :
    (((-1 : Int) < 0 ∨ (918744 : Int) ≤ -1) ∧ ((918744 : Int) < 0 ∨ (918744 : Int) ≤ 918744))
    ∧ ripple_serializeVarint 8 (-1) (zero_writer 8)
        = (if (-1 : Int) < 0 then .ret false (zero_writer 8) else .abort (zero_writer 8))
    ∧ ripple_serializeVarint 8 918744 (zero_writer 8)
        = (if (918744 : Int) < 0 then .ret false (zero_writer 8)
            else .abort (zero_writer 8)) :=
  ⟨⟨by decide, by decide⟩,
    ripple_serializeVarint_out_of_range 8 (-1) (zero_writer 8) (by decide),
    ripple_serializeVarint_out_of_range 8 918744 (zero_writer 8) (by decide)⟩

/-! ## C13: the tag of a field -/

theorem toU8_lor (a k : Nat) (h : a ||| k < 256) :
    toU8 (Int.lor (a : Int) (k : Int)) = a ||| k := by
  have e : Int.lor (a : Int) (k : Int) = ((a ||| k : Nat) : Int) := rfl
  rw [e, toU8_natCast, Nat.mod_eq_of_lt h]

/-- C13. For every field mapping with a type code in 1..15 and a writer with
enough room, `ripple_serializeType` appends exactly the one byte
`type<<4 | key` when `0 ≤ key ≤ 15`, and exactly the two bytes `type<<4`,
`key` when `15 < key ≤ 255`. -/
theorem ripple_serializeType_encodes (end_ : Nat) (m : FieldMapping) (w : Writer)
    (ht1 : 1 ≤ m.type) (ht2 : m.type ≤ 15) (hk0 : 0 ≤ m.key) (hk1 : m.key ≤ 255)
    (hcap : w.pos + 2 ≤ end_) (hmem : end_ ≤ w.mem.length) :
    ripple_serializeType end_ m w
      = .ret true (w.appended
          (if m.key ≤ 15 then [m.type <<< 4 ||| m.key.toNat]
           else [m.type <<< 4, m.key.toNat])) := by
  obtain ⟨k, hk⟩ := Int.eq_ofNat_of_zero_le hk0
  have hsh : m.type <<< 4 = m.type * 16 := by rw [Nat.shiftLeft_eq]
  have ht1n : @LE.le Nat _ 1 m.type := ht1
  have ht2n : @LE.le Nat _ m.type 15 := ht2
  have ht : tag_bytes m = if m.key ≤ 15 then [m.type <<< 4 ||| m.key.toNat]
      else [m.type <<< 4, m.key.toNat] := by
    unfold tag_bytes
    by_cases h15 : m.key ≤ 15
    · have hk15 : k ≤ 15 := by omega
      have hlt : m.type <<< 4 ||| k < 256 :=
        Nat.or_lt_two_pow (n := 8) (by omega) (by omega)
      rw [if_pos (by simpa using h15), if_pos h15, hk, toU8_lor _ _ hlt, Int.toNat_ofNat]
    · rw [if_neg (by simpa using h15), if_neg h15, toU8_natCast, hk, toU8_natCast,
        Int.toNat_ofNat, Nat.mod_eq_of_lt (by omega), Nat.mod_eq_of_lt (by omega)]
  have hl : (tag_bytes m).length ≤ 2 := by
    rw [ht]; split <;> simp
  rw [ripple_serializeType_ok end_ m w (by omega), Writer.append_eq_appended _ _ (by omega), ht]

/-- C13, at two entries of the catalog: Sequence (type 2, key 4) gives 24 and
LastLedgerSequence (type 2, key 27) gives 20 1B. -/
theorem ripple_serializeType_encodes_witness :
    ((1 ≤ FM_sequence.type ∧ FM_sequence.type ≤ 15 ∧ 0 ≤ FM_sequence.key
        ∧ FM_sequence.key ≤ 255 ∧ (zero_writer 4).pos + 2 ≤ 4
        ∧ 4 ≤ (zero_writer 4).mem.length)
      ∧ (1 ≤ FM_lastLedgerSequence.type ∧ FM_lastLedgerSequence.type ≤ 15
        ∧ 0 ≤ FM_lastLedgerSequence.key ∧ FM_lastLedgerSequence.key ≤ 255))
    ∧ ripple_serializeType 4 FM_sequence (zero_writer 4) = .ret true ⟨[0x24, 0, 0, 0], 1⟩
    ∧ ripple_serializeType 4 FM_lastLedgerSequence (zero_writer 4)
        = .ret true ⟨[0x20, 0x1B, 0, 0], 2⟩ := by
  refine ⟨⟨⟨by decide, by decide, by decide, by decide, by decide, by decide⟩,
    ⟨by decide, by decide, by decide, by decide⟩⟩, ?_, ?_⟩
  · rw [ripple_serializeType_encodes 4 FM_sequence (zero_writer 4)
      (by decide) (by decide) (by decide) (by decide) (by decide) (by decide)]
    decide
  · rw [ripple_serializeType_encodes 4 FM_lastLedgerSequence (zero_writer 4)
      (by decide) (by decide) (by decide) (by decide) (by decide) (by decide)]
    decide

/-! ## C14: the cursor and the end of the destination -/

theorem rel_append_u8 {end_ : Nat} {R : Writer → Writer → Prop} (hR : StepRel end_ R)
    (v : Int) (w : Writer) : R w (append_u8 end_ v w).writer := by
  unfold append_u8
  split
  · exact hR.refl w
  · exact hR.store w _ (by omega)

theorem rel_andThen {end_ : Nat} {R : Writer → Writer → Prop} (hR : StepRel end_ R)
    (w : Writer) (o : Outcome) (f : Writer → Outcome)
    (ho : R w o.writer) (hf : ∀ w1, R w1 (f w1).writer) : R w (o.andThen f).writer := by
  cases o with
  | abort w1 => exact ho
  | ret ok w1 =>
    cases ok with
    | false => exact ho
    | true => exact hR.trans _ _ _ ho (hf w1)

theorem rel_andThenIf {end_ : Nat} {R : Writer → Writer → Prop} (hR : StepRel end_ R)
    (w : Writer) (o : Outcome) (c : Bool) (f : Writer → Outcome)
    (ho : R w o.writer) (hf : ∀ w1, R w1 (f w1).writer) : R w (o.andThenIf c f).writer := by
  unfold Outcome.andThenIf
  split
  · exact rel_andThen hR w o f ho hf
  · exact ho

theorem rel_serializeType {end_ : Nat} {R : Writer → Writer → Prop} (hR : StepRel end_ R)
    (m : FieldMapping) (w : Writer) : R w (ripple_serializeType end_ m w).writer := by
  unfold ripple_serializeType
  split
  · exact rel_append_u8 hR _ w
  · exact rel_andThen hR w _ _
      (rel_andThen hR w _ _ (hR.refl w) (fun w1 => rel_append_u8 hR _ w1))
      (fun w1 => rel_append_u8 hR _ w1)

theorem rel_serializeInt16 {end_ : Nat} {R : Writer → Writer → Prop} (hR : StepRel end_ R)
    (m : FieldMapping) (v : Int) (w : Writer) :
    R w (ripple_serializeInt16 end_ m v w).writer := by
  unfold ripple_serializeInt16
  split
  · exact hR.refl w
  · exact rel_andThen hR w _ _
      (rel_andThen hR w _ _
        (rel_andThen hR w _ _ (hR.refl w) (fun w1 => rel_serializeType hR m w1))
        (fun w1 => rel_append_u8 hR _ w1))
      (fun w1 => rel_append_u8 hR _ w1)

theorem rel_serializeInt32 {end_ : Nat} {R : Writer → Writer → Prop} (hR : StepRel end_ R)
    (m : FieldMapping) (v : Int) (w : Writer) :
    R w (ripple_serializeInt32 end_ m v w).writer := by
  unfold ripple_serializeInt32
  split
  · exact hR.refl w
  · exact rel_andThen hR w _ _
      (rel_andThen hR w _ _
        (rel_andThen hR w _ _
          (rel_andThen hR w _ _
            (rel_andThen hR w _ _ (hR.refl w) (fun w1 => rel_serializeType hR m w1))
            (fun w1 => rel_append_u8 hR _ w1))
          (fun w1 => rel_append_u8 hR _ w1))
        (fun w1 => rel_append_u8 hR _ w1))
      (fun w1 => rel_append_u8 hR _ w1)

theorem rel_serializeAmount {end_ : Nat} {R : Writer → Writer → Prop} (hR : StepRel end_ R)
    (m : FieldMapping) (a : Int) (w : Writer) :
    R w (ripple_serializeAmount end_ m a w).writer := by
  have h1 : R w ((Outcome.ret true w).andThen (ripple_serializeType end_ m)).writer :=
    rel_andThen hR w _ _ (hR.refl w) (fun w1 => rel_serializeType hR m w1)
  unfold ripple_serializeAmount
  split
  · rename_i w1 heq
    rw [heq] at h1
    exact h1
  · rename_i ok w1 heq
    rw [heq] at h1
    have h1 : R w w1 := h1
    split
    · exact h1
    · split
      · exact h1
      · exact rel_andThen hR w _ _
          (rel_andThen hR w _ _
            (rel_andThen hR w _ _
              (rel_andThen hR w _ _
                (rel_andThen hR w _ _
                  (rel_andThen hR w _ _
                    (rel_andThen hR w _ _
                      (rel_andThen hR w _ _ h1 (fun w2 => rel_append_u8 hR _ w2))
                      (fun w2 => rel_append_u8 hR _ w2))
                    (fun w2 => rel_append_u8 hR _ w2))
                  (fun w2 => rel_append_u8 hR _ w2))
                (fun w2 => rel_append_u8 hR _ w2))
              (fun w2 => rel_append_u8 hR _ w2))
            (fun w2 => rel_append_u8 hR _ w2))
          (fun w2 => rel_append_u8 hR _ w2)

theorem rel_serializeVarint {end_ : Nat} {R : Writer → Writer → Prop} (hR : StepRel end_ R)
    (n : Int) (w : Writer) : R w (ripple_serializeVarint end_ n w).writer := by
  unfold ripple_serializeVarint
  split
  · exact hR.refl w
  · split
    · exact rel_append_u8 hR _ w
    · split
      · exact rel_andThen hR w _ _
          (rel_andThen hR w _ _ (hR.refl w) (fun w1 => rel_append_u8 hR _ w1))
          (fun w1 => rel_append_u8 hR _ w1)
      · split
        · split
          · exact hR.refl w
          · exact rel_andThen hR w _ _
              (rel_andThen hR w _ _
                (rel_andThen hR w _ _ (hR.refl w) (fun w1 => rel_append_u8 hR _ w1))
                (fun w1 => rel_append_u8 hR _ w1))
              (fun w1 => rel_append_u8 hR _ w1)
        · exact hR.refl w

theorem rel_serializeBytes {end_ : Nat} {R : Writer → Writer → Prop} (hR : StepRel end_ R)
    (bytes : List Nat) (count : Nat) (w : Writer) :
    R w (ripple_serializeBytes end_ bytes count w).writer := by
  have h1 : R w ((Outcome.ret true w).andThen
      (ripple_serializeVarint end_ (toInt32 count))).writer :=
    rel_andThen hR w _ _ (hR.refl w) (fun w1 => rel_serializeVarint hR _ w1)
  unfold ripple_serializeBytes
  split
  · rename_i w1 heq
    rw [heq] at h1
    exact h1
  · rename_i ok w1 heq
    rw [heq] at h1
    have h1 : R w w1 := h1
    split
    · exact h1
    · rename_i hc
      have hlt : w1.pos + count < end_ := by
        simp only [Bool.or_eq_true, Bool.not_eq_true', decide_eq_true_eq, not_or, not_le,
          ge_iff_le] at hc
        exact hc.2
      exact hR.trans _ _ _ h1 (hR.copy w1 bytes count hlt)

theorem rel_serializeVL {end_ : Nat} {R : Writer → Writer → Prop} (hR : StepRel end_ R)
    (m : FieldMapping) (bytes : List Nat) (count : Nat) (w : Writer) :
    R w (ripple_serializeVL end_ m bytes count w).writer := by
  unfold ripple_serializeVL
  exact rel_andThen hR w _ _
    (rel_andThen hR w _ _ (hR.refl w) (fun w1 => rel_serializeType hR m w1))
    (fun w1 => rel_serializeBytes hR bytes count w1)

theorem rel_serializeAddress {end_ : Nat} {R : Writer → Writer → Prop} (hR : StepRel end_ R)
    (hskip : ∀ w : Writer, R w ⟨w.mem, w.pos + 20⟩)
    (env : Env) (m : FieldMapping) (address : String) (w : Writer) :
    R w (ripple_serializeAddress env end_ m address w).writer := by
  unfold ripple_serializeAddress
  simp only []
  split
  · exact hskip w
  · exact rel_serializeBytes hR _ _ w

theorem stepRel_bounded (end_ : Nat) : StepRel end_ (Writer.bounded end_) where
  refl := fun _ h => h
  trans := fun _ _ _ h1 h2 h => h2 (h1 h)
  store := fun _ _ h _ => h
  copy := fun w bytes count h _ => by
    show w.pos + count ≤ end_
    omega

/-- The part of C14 that holds: each of the eight encoders below
`ripple_serializeAddress` leaves the cursor at or before `end` if it was
there, whether it succeeds, fails or is ended by an assertion. -/
theorem encoders_keep_cursor_bounded (end_ : Nat) (w : Writer) (h : w.pos ≤ end_) :
    (∀ v, (append_u8 end_ v w).writer.pos ≤ end_)
    ∧ (∀ m, (ripple_serializeType end_ m w).writer.pos ≤ end_)
    ∧ (∀ m v, (ripple_serializeInt16 end_ m v w).writer.pos ≤ end_)
    ∧ (∀ m v, (ripple_serializeInt32 end_ m v w).writer.pos ≤ end_)
    ∧ (∀ m a, (ripple_serializeAmount end_ m a w).writer.pos ≤ end_)
    ∧ (∀ n, (ripple_serializeVarint end_ n w).writer.pos ≤ end_)
    ∧ (∀ bytes count, (ripple_serializeBytes end_ bytes count w).writer.pos ≤ end_)
    ∧ (∀ m bytes count, (ripple_serializeVL end_ m bytes count w).writer.pos ≤ end_) :=
  ⟨fun v => rel_append_u8 (stepRel_bounded end_) v w h,
    fun m => rel_serializeType (stepRel_bounded end_) m w h,
    fun m v => rel_serializeInt16 (stepRel_bounded end_) m v w h,
    fun m v => rel_serializeInt32 (stepRel_bounded end_) m v w h,
    fun m a => rel_serializeAmount (stepRel_bounded end_) m a w h,
    fun n => rel_serializeVarint (stepRel_bounded end_) n w h,
    fun bytes count => rel_serializeBytes (stepRel_bounded end_) bytes count w h,
    fun m bytes count => rel_serializeVL (stepRel_bounded end_) m bytes count w h⟩

/-- C14 (code at the failing input). With the cursor at offset 0 and `end` at
offset 10, `ripple_serializeAddress` on a valid address (21 decoded bytes)
returns success with the cursor at 20, past `end`; `ripple_serialize` with
that address as destination leaves the cursor at 23. -/
theorem ripple_serializeAddress_passes_end :
    (zero_writer 10).pos ≤ 10
    ∧ ripple_serializeAddress plain_env 10 FM_account "rAccount" (zero_writer 10)
        = .ret true ⟨List.replicate 10 0, 20⟩
    ∧ ¬ (ripple_serializeAddress plain_env 10 FM_account "rAccount"
          (zero_writer 10)).writer.pos ≤ 10
    ∧ ripple_serialize plain_env 10 tx_only_destination none none none (zero_writer 10)
        = .ret true ⟨[0x12, 0x00, 0x00] ++ List.replicate 7 0, 23⟩
    ∧ ¬ (ripple_serialize plain_env 10 tx_only_destination none none none
          (zero_writer 10)).writer.pos ≤ 10 := by
  refine ⟨by decide, by decide, by decide, by decide, by decide⟩

/-! ## C15: a blob that fits exactly -/

/-- C15 (code at the failing input). A blob of three bytes under the tag 73
needs 1 + 1 + 3 = 5 bytes; with exactly five bytes left `ripple_serializeVL`
does not write it: after the tag and the length byte, the test
`*buf + count >= end` of `ripple_serializeBytes` holds and its assertion ends
the run.  With six bytes left the field is written. -/
theorem ripple_serializeVL_exact_fit_aborts :
    (tag_bytes FM_signingPubKey).length + (varint_bytes 3).length + 3 = 5
    ∧ ripple_serializeVL 5 FM_signingPubKey [1, 2, 3] 3 (zero_writer 5)
        = .abort ⟨[0x73, 0x03, 0, 0, 0], 2⟩
    ∧ ripple_serializeVL 6 FM_signingPubKey [1, 2, 3] 3 (zero_writer 6)
        = .ret true ⟨[0x73, 0x03, 1, 2, 3, 0], 5⟩ := by
  refine ⟨by decide, by decide, by decide⟩

/-! ## C16: what happens when the destination is too small -/

theorem append_u8_true {end_ : Nat} {v : Int} {w w1 : Writer}
    (h : append_u8 end_ v w = .ret true w1) :
    w.pos + 1 ≤ end_ ∧ w1 = w.append [toU8 v] := by
  unfold append_u8 at h
  split at h
  · exact absurd h (by simp)
  · rename_i hc
    refine ⟨by omega, ?_⟩
    have := (Outcome.ret.inj h).2
    rw [← this]
    rfl

theorem andThen_true {o : Outcome} {f : Writer → Outcome} {w1 : Writer}
    (h : o.andThen f = .ret true w1) : ∃ w0, o = .ret true w0 ∧ f w0 = .ret true w1 := by
  cases o with
  | abort w0 => exact absurd h (by simp [Outcome.andThen])
  | ret ok w0 =>
    cases ok with
    | false => exact absurd h (by simp [Outcome.andThen])
    | true => exact ⟨w0, rfl, h⟩

theorem andThen_append_u8_true {end_ : Nat} {o : Outcome} {v : Int} {w1 : Writer}
    (h : o.andThen (append_u8 end_ v) = .ret true w1) :
    ∃ w0, o = .ret true w0 ∧ w0.pos + 1 ≤ end_ ∧ w1 = w0.append [toU8 v] := by
  obtain ⟨w0, h0, h1⟩ := andThen_true h
  exact ⟨w0, h0, append_u8_true h1⟩

theorem ripple_serializeType_true {end_ : Nat} {m : FieldMapping} {w w1 : Writer}
    (h : ripple_serializeType end_ m w = .ret true w1) :
    w.pos + (tag_bytes m).length ≤ end_ ∧ w1 = w.append (tag_bytes m) := by
  have h0 := h
  have hcap : w.pos + (tag_bytes m).length ≤ end_ := by
    unfold ripple_serializeType at h
    unfold tag_bytes
    split at h
    · rename_i hk
      rw [if_pos hk]
      exact (append_u8_true h).1
    · rename_i hk
      rw [if_neg hk]
      obtain ⟨w2, h, c2, -⟩ := andThen_append_u8_true h
      obtain ⟨w3, h, c3, e3⟩ := andThen_append_u8_true h
      have e : w3 = w := ((Outcome.ret.inj h).2).symm
      subst e
      subst e3
      simp only [Writer.append_pos, List.length_cons, List.length_nil] at c2 ⊢
      omega
  rw [ripple_serializeType_ok _ _ _ hcap] at h0
  exact ⟨hcap, ((Outcome.ret.inj h0).2).symm⟩

theorem ripple_serializeInt16_true {end_ : Nat} {w w1 : Writer}
    (h : ripple_serializeInt16 end_ FM_type 0 w = .ret true w1) :
    w.pos + 3 ≤ end_ ∧ w1 = w.append [0x12, 0x00, 0x00] := by
  have h0 := h
  have ht : tag_bytes FM_type = [0x12] := by decide
  have hcap : w.pos + 3 ≤ end_ := by
    unfold ripple_serializeInt16 at h
    rw [if_neg (by decide)] at h
    obtain ⟨w3, h, c3, -⟩ := andThen_append_u8_true h
    obtain ⟨w2, h, c2, e2⟩ := andThen_append_u8_true h
    rw [Outcome.ret_true_andThen] at h
    obtain ⟨-, e1⟩ := ripple_serializeType_true h
    subst e2
    subst e1
    rw [ht] at c3
    simp only [Writer.append_pos, List.length_cons, List.length_nil] at c3
    omega
  rw [ripple_serializeInt16_type _ _ hcap] at h0
  exact ⟨hcap, ((Outcome.ret.inj h0).2).symm⟩

theorem ripple_serializeInt16_cap {end_ : Nat} {m : FieldMapping} {v : Int} {w w1 : Writer}
    (hm : m.type = FT_INT16)
    (h : ripple_serializeInt16 end_ m v w = .ret true w1) :
    w.pos + (tag_bytes m).length + 2 ≤ end_ := by
  unfold ripple_serializeInt16 at h
  rw [if_neg (not_not.mpr hm)] at h
  obtain ⟨w3, h, c3, -⟩ := andThen_append_u8_true h
  obtain ⟨w2, h, c2, e2⟩ := andThen_append_u8_true h
  rw [Outcome.ret_true_andThen] at h
  obtain ⟨-, e1⟩ := ripple_serializeType_true h
  subst e2
  subst e1
  simp only [Writer.append_pos, List.length_cons, List.length_nil] at c3
  omega

theorem ripple_serializeInt32_true {end_ : Nat} {m : FieldMapping} {v : Nat} {w w1 : Writer}
    (hm : m.type = FT_INT32)
    (h : ripple_serializeInt32 end_ m (toInt32 v) w = .ret true w1) :
    w.pos + (tag_bytes m).length + 4 ≤ end_ ∧ w1 = w.append (tag_bytes m ++ be32 v) := by
  have h0 := h
  have hcap : w.pos + (tag_bytes m).length + 4 ≤ end_ := by
    unfold ripple_serializeInt32 at h
    rw [if_neg (not_not.mpr hm)] at h
    obtain ⟨w5, h, c5, -⟩ := andThen_append_u8_true h
    obtain ⟨w4, h, c4, e4⟩ := andThen_append_u8_true h
    obtain ⟨w3, h, c3, e3⟩ := andThen_append_u8_true h
    obtain ⟨w2, h, c2, e2⟩ := andThen_append_u8_true h
    rw [Outcome.ret_true_andThen] at h
    obtain ⟨-, e1⟩ := ripple_serializeType_true h
    subst e4
    subst e3
    subst e2
    subst e1
    simp only [Writer.append_pos, List.length_cons, List.length_nil] at c5
    omega
  rw [ripple_serializeInt32_ok _ _ _ _ hm hcap] at h0
  exact ⟨hcap, ((Outcome.ret.inj h0).2).symm⟩

theorem ripple_serializeAmount_true {end_ : Nat} {m : FieldMapping} {a : Int} {w w1 : Writer}
    (h : ripple_serializeAmount end_ m a w = .ret true w1) :
    (0 ≤ a ∧ a ≤ 100000000000) ∧ w.pos + (tag_bytes m).length + 8 ≤ end_
      ∧ w1 = w.append (tag_bytes m ++ be64 (a.toNat + 2 ^ 62)) := by
  have h0 := h
  have hfacts : (0 ≤ a ∧ a ≤ 100000000000) ∧ w.pos + (tag_bytes m).length + 8 ≤ end_ := by
    unfold ripple_serializeAmount at h
    rw [Outcome.ret_true_andThen] at h
    split at h
    · exact absurd h (by simp)
    · rename_i ok w2 heq
      split at h
      · exact absurd h (by simp)
      · rename_i ha0
        split at h
        · exact absurd h (by simp)
        · rename_i ha1
          simp only [] at h
          obtain ⟨w9, h, c9, -⟩ := andThen_append_u8_true h
          obtain ⟨w8, h, c8, e8⟩ := andThen_append_u8_true h
          obtain ⟨w7, h, c7, e7⟩ := andThen_append_u8_true h
          obtain ⟨w6, h, c6, e6⟩ := andThen_append_u8_true h
          obtain ⟨w5, h, c5, e5⟩ := andThen_append_u8_true h
          obtain ⟨w4, h, c4, e4⟩ := andThen_append_u8_true h
          obtain ⟨w3, h, c3, e3⟩ := andThen_append_u8_true h
          obtain ⟨w2', h, c2, e2⟩ := andThen_append_u8_true h
          have hok : ok = true := (Outcome.ret.inj h).1
          have hw : w2 = w2' := (Outcome.ret.inj h).2
          subst hok
          subst hw
          obtain ⟨-, e1⟩ := ripple_serializeType_true heq
          subst e8
          subst e7
          subst e6
          subst e5
          subst e4
          subst e3
          subst e2
          subst e1
          simp only [Writer.append_pos, List.length_cons, List.length_nil] at c9
          refine ⟨⟨by omega, by omega⟩, by omega⟩
  rw [ripple_serializeAmount_ok _ _ _ _ hfacts.1.1 hfacts.1.2 hfacts.2] at h0
  exact ⟨hfacts.1, hfacts.2, ((Outcome.ret.inj h0).2).symm⟩

theorem ripple_serializeVarint_true {end_ : Nat} {n : Int} {w w1 : Writer}
    (h0n : 0 ≤ n) (h1n : n < 918744)
    (h : ripple_serializeVarint end_ n w = .ret true w1) :
    w.pos + (varint_bytes n).length ≤ end_ ∧ w1 = w.append (varint_bytes n) := by
  have h0 := h
  have hfacts : w.pos + (varint_bytes n).length ≤ end_ ∧ (12480 < n → w.pos + 3 < end_) := by
    unfold ripple_serializeVarint at h
    unfold varint_bytes
    rw [if_neg (by omega)] at h
    by_cases h192 : n < 192
    · rw [if_pos h192] at h
      rw [if_pos h192]
      exact ⟨by simpa using (append_u8_true h).1, fun hh => by omega⟩
    · rw [if_neg h192] at h
      rw [if_neg h192]
      by_cases h2 : n ≤ 12480
      · rw [if_pos h2] at h
        rw [if_pos h2]
        simp only [] at h
        obtain ⟨w3, h, c3, -⟩ := andThen_append_u8_true h
        obtain ⟨w2, h, c2, e2⟩ := andThen_append_u8_true h
        have e : w2 = w := ((Outcome.ret.inj h).2).symm
        subst e
        subst e2
        simp only [Writer.append_pos, List.length_cons, List.length_nil] at c3 ⊢
        exact ⟨by omega, fun hh => by omega⟩
      · rw [if_neg h2, if_pos h1n] at h
        rw [if_neg h2]
        split at h
        · exact absurd h (by simp)
        · rename_i h3
          simp only [List.length_cons, List.length_nil]
          exact ⟨by omega, fun _ => by omega⟩
  rw [ripple_serializeVarint_fits _ _ _ h0n h1n hfacts.1 hfacts.2] at h0
  exact ⟨hfacts.1, ((Outcome.ret.inj h0).2).symm⟩

theorem ripple_serializeBytes_never_false (end_ : Nat) (bytes : List Nat) (count : Nat)
    (w w1 : Writer) : ripple_serializeBytes end_ bytes count w ≠ .ret false w1 := by
  unfold ripple_serializeBytes
  split
  · simp
  · rename_i ok w2 heq
    split
    · simp
    · rename_i hc
      cases ok with
      | false => simp at hc
      | true => simp

theorem ripple_serializeBytes_true {end_ : Nat} {bytes : List Nat} {count : Nat}
    {w w1 : Writer} (hc : count < 918744)
    (h : ripple_serializeBytes end_ bytes count w = .ret true w1) :
    w.pos + (varint_bytes count).length + count < end_
      ∧ w1 = memcpy_advance bytes count (w.append (varint_bytes count)) := by
  unfold ripple_serializeBytes at h
  rw [toInt32_of_lt count (by omega), Outcome.ret_true_andThen] at h
  split at h
  · exact absurd h (by simp)
  · rename_i ok w2 heq
    split at h
    · exact absurd h (by simp)
    · rename_i hcond
      have hok : ok = true := (Outcome.ret.inj h).1
      subst hok
      obtain ⟨-, e2⟩ := ripple_serializeVarint_true (by omega) (by omega) heq
      subst e2
      simp only [Bool.not_true, Bool.false_or, decide_eq_true_eq, ge_iff_le, not_le,
        Writer.append_pos] at hcond
      exact ⟨hcond, ((Outcome.ret.inj h).2).symm⟩

theorem ripple_serializeBytes_too_long (end_ : Nat) (bytes : List Nat) (count : Nat)
    (w : Writer) (hc : count < 918744)
    (h : end_ ≤ w.pos + (varint_bytes count).length + count) :
    (ripple_serializeBytes end_ bytes count w).returned = false := by
  cases hr : ripple_serializeBytes end_ bytes count w with
  | abort w1 => rfl
  | ret ok w1 =>
    cases ok with
    | false => exact absurd hr (ripple_serializeBytes_never_false _ _ _ _ _)
    | true =>
      have := (ripple_serializeBytes_true hc hr).1
      omega

theorem returned_andThen (o : Outcome) (f : Writer → Outcome)
    (ho : o.returned = true) (hf : ∀ w, (f w).returned = true) :
    (o.andThen f).returned = true := by
  cases o with
  | abort w => exact absurd ho (by simp [Outcome.returned])
  | ret ok w =>
    cases ok with
    | false => rfl
    | true => exact hf w

theorem returned_append_u8 (end_ : Nat) (v : Int) (w : Writer) :
    (append_u8 end_ v w).returned = true := by
  unfold append_u8
  split <;> rfl

theorem returned_serializeType (end_ : Nat) (m : FieldMapping) (w : Writer) :
    (ripple_serializeType end_ m w).returned = true := by
  unfold ripple_serializeType
  split
  · exact returned_append_u8 _ _ _
  · exact returned_andThen _ _ (returned_andThen _ _ rfl (returned_append_u8 _ _))
      (returned_append_u8 _ _)

theorem returned_serializeInt16 (end_ : Nat) (m : FieldMapping) (v : Int) (w : Writer)
    (hm : m.type = FT_INT16) : (ripple_serializeInt16 end_ m v w).returned = true := by
  unfold ripple_serializeInt16
  rw [if_neg (not_not.mpr hm)]
  exact returned_andThen _ _
    (returned_andThen _ _ (returned_andThen _ _ rfl (returned_serializeType _ _))
      (returned_append_u8 _ _))
    (returned_append_u8 _ _)

theorem returned_serializeInt32 (end_ : Nat) (m : FieldMapping) (v : Int) (w : Writer)
    (hm : m.type = FT_INT32) : (ripple_serializeInt32 end_ m v w).returned = true := by
  unfold ripple_serializeInt32
  rw [if_neg (not_not.mpr hm)]
  exact returned_andThen _ _
    (returned_andThen _ _
      (returned_andThen _ _
        (returned_andThen _ _ (returned_andThen _ _ rfl (returned_serializeType _ _))
          (returned_append_u8 _ _))
        (returned_append_u8 _ _))
      (returned_append_u8 _ _))
    (returned_append_u8 _ _)

theorem returned_serializeAmount (end_ : Nat) (m : FieldMapping) (a : Int) (w : Writer)
    (h0 : 0 ≤ a) (h1 : a ≤ 100000000000) :
    (ripple_serializeAmount end_ m a w).returned = true := by
  have ht := returned_serializeType end_ m w
  unfold ripple_serializeAmount
  rw [Outcome.ret_true_andThen]
  split
  · rename_i w1 heq
    rw [heq] at ht
    exact absurd ht (by simp [Outcome.returned])
  · rename_i ok w1 heq
    rw [if_neg (not_not.mpr h0), if_neg (not_not.mpr h1)]
    exact returned_andThen _ _
      (returned_andThen _ _
        (returned_andThen _ _
          (returned_andThen _ _
            (returned_andThen _ _
              (returned_andThen _ _
                (returned_andThen _ _
                  (returned_andThen _ _ rfl (returned_append_u8 _ _))
                  (returned_append_u8 _ _))
                (returned_append_u8 _ _))
              (returned_append_u8 _ _))
            (returned_append_u8 _ _))
          (returned_append_u8 _ _))
        (returned_append_u8 _ _))
      (returned_append_u8 _ _)

theorem returned_serializeVarint (end_ : Nat) (n : Int) (w : Writer) (h : n ≤ 12480) :
    (ripple_serializeVarint end_ n w).returned = true := by
  unfold ripple_serializeVarint
  split
  · rfl
  · split
    · exact returned_append_u8 _ _ _
    · exact returned_andThen _ _ (returned_andThen _ _ rfl (returned_append_u8 _ _))
        (returned_append_u8 _ _)

theorem succeeded_iff (o : Outcome) : o.succeeded = true ↔ ∃ w1, o = .ret true w1 := by
  cases o with
  | abort w => simp [Outcome.succeeded]
  | ret ok w => cases ok <;> simp [Outcome.succeeded]

theorem not_succeeded (o : Outcome) (h : ∀ w1, o ≠ .ret true w1) : o.succeeded = false := by
  cases hs : o.succeeded with
  | false => rfl
  | true =>
    obtain ⟨w1, h1⟩ := (succeeded_iff o).mp hs
    exact absurd h1 (h w1)

/-- C16, as stated, fails: a blob of five bytes with four bytes left does not
make `ripple_serializeBytes` return failure, its assertion ends the run after
the length byte; and a three-byte length with exactly three bytes left is not
written, the assertion of `ripple_serializeVarint` ends the run. -/
theorem ripple_serializeBytes_short_destination_aborts :
    ripple_serializeBytes 4 [1, 2, 3, 4, 5] 5 (zero_writer 4) = .abort ⟨[5, 0, 0, 0], 1⟩
    ∧ ripple_serializeVarint 3 12481 (zero_writer 3) = .abort (zero_writer 3) := by
  refine ⟨by decide, by decide⟩

/-- C16 (amended). For every writer state with the cursor at or before the
end: `append_u8`, `ripple_serializeType`, `ripple_serializeInt16` and
`ripple_serializeInt32` (on a mapping of their type), `ripple_serializeAmount`
(on an amount in range) and `ripple_serializeVarint` (on a length up to 12480)
always return, and what they return is failure when the bytes do not fit; a
three-byte length returns when four bytes are left and is ended by the
assertion when fewer than three are; `ripple_serializeBytes`, and
`ripple_serializeVL` once its tag is written, do not return failure when the
blob does not fit the space left after its length: their assertion ends the
run. -/
theorem capacity_outcomes (end_ : Nat) (w : Writer) (hw : w.pos ≤ end_) :
    (∀ v, (append_u8 end_ v w).returned = true
        ∧ (end_ < w.pos + 1 → append_u8 end_ v w = .ret false w))
    ∧ (∀ m, (ripple_serializeType end_ m w).returned = true
        ∧ (end_ < w.pos + (tag_bytes m).length →
            (ripple_serializeType end_ m w).succeeded = false))
    ∧ (∀ m v, m.type = FT_INT16 → (ripple_serializeInt16 end_ m v w).returned = true)
    ∧ (∀ m v, m.type = FT_INT16 → end_ < w.pos + (tag_bytes m).length + 2 →
        (ripple_serializeInt16 end_ m v w).succeeded = false)
    ∧ (∀ m v, m.type = FT_INT32 →
        (ripple_serializeInt32 end_ m (toInt32 v) w).returned = true
        ∧ (end_ < w.pos + (tag_bytes m).length + 4 →
            (ripple_serializeInt32 end_ m (toInt32 v) w).succeeded = false))
    ∧ (∀ m a, 0 ≤ a → a ≤ 100000000000 →
        (ripple_serializeAmount end_ m a w).returned = true
        ∧ (end_ < w.pos + (tag_bytes m).length + 8 →
            (ripple_serializeAmount end_ m a w).succeeded = false))
    ∧ (∀ n, 0 ≤ n → n ≤ 12480 →
        (ripple_serializeVarint end_ n w).returned = true
        ∧ (end_ < w.pos + (varint_bytes n).length →
            (ripple_serializeVarint end_ n w).succeeded = false))
    ∧ (∀ n, 12480 < n → n < 918744 →
        (w.pos + 4 ≤ end_ → (ripple_serializeVarint end_ n w).succeeded = true)
        ∧ (end_ < w.pos + 3 → (ripple_serializeVarint end_ n w).returned = false))
    ∧ (∀ (bytes : List Nat) (count : Nat), count < 918744 →
        end_ < w.pos + (varint_bytes count).length + count →
        (ripple_serializeBytes end_ bytes count w).returned = false)
    ∧ (∀ (m : FieldMapping) (bytes : List Nat) (count : Nat), count < 918744 →
        w.pos + (tag_bytes m).length ≤ end_ →
        end_ < w.pos + (tag_bytes m).length + (varint_bytes count).length + count →
        (ripple_serializeVL end_ m bytes count w).returned = false) := by
  refine ⟨?_, ?_, ?_, ?_, ?_, ?_, ?_, ?_, ?_, ?_⟩
  · intro v
    refine ⟨returned_append_u8 _ _ _, fun h => ?_⟩
    unfold append_u8
    rw [if_pos (by omega)]
  · intro m
    refine ⟨returned_serializeType _ _ _, fun h => not_succeeded _ (fun w1 h1 => ?_)⟩
    have := (ripple_serializeType_true h1).1
    omega
  · intro m v hm
    exact returned_serializeInt16 _ _ _ _ hm
  · intro m v hm h
    refine not_succeeded _ (fun w1 h1 => ?_)
    have := ripple_serializeInt16_cap hm h1
    omega
  · intro m v hm
    refine ⟨returned_serializeInt32 _ _ _ _ hm, fun h => not_succeeded _ (fun w1 h1 => ?_)⟩
    have := (ripple_serializeInt32_true hm h1).1
    omega
  · intro m a h0 h1
    refine ⟨returned_serializeAmount _ _ _ _ h0 h1,
      fun h => not_succeeded _ (fun w1 h2 => ?_)⟩
    have := (ripple_serializeAmount_true h2).2.1
    omega
  · intro n h0 h1
    refine ⟨returned_serializeVarint _ _ _ h1, fun h => not_succeeded _ (fun w1 h2 => ?_)⟩
    have := (ripple_serializeVarint_true h0 (by omega) h2).1
    omega
  · intro n h0 h1
    constructor
    · intro hc
      rw [ripple_serializeVarint_ok _ _ _ (by omega) h1 hc]
      rfl
    · intro hc
      unfold ripple_serializeVarint
      rw [if_neg (by omega), if_neg (by omega), if_neg (by omega), if_pos h1,
        if_pos (by omega)]
      rfl
  · intro bytes count hc h
    exact ripple_serializeBytes_too_long _ _ _ _ hc (by omega)
  · intro m bytes count hc ht h
    unfold ripple_serializeVL
    rw [Outcome.ret_true_andThen, ripple_serializeType_ok _ _ _ ht, Outcome.ret_true_andThen]
    exact ripple_serializeBytes_too_long _ _ _ _ hc
      (by rw [Writer.append_pos]; omega)

/-- C16 (amended), on a destination of four bytes: a 32-bit field (five bytes)
is refused with an ordinary failure, a blob of five bytes ends the run; and on
a destination of two bytes a 16-bit field (three bytes) is refused with an
ordinary failure. -/
theorem capacity_outcomes_witness :
    ((zero_writer 4).pos ≤ 4 ∧ (zero_writer 2).pos ≤ 2)
    ∧ ((ripple_serializeInt32 4 FM_flags (toInt32 7) (zero_writer 4)).returned = true
      ∧ (4 < (zero_writer 4).pos + (tag_bytes FM_flags).length + 4 →
          (ripple_serializeInt32 4 FM_flags (toInt32 7) (zero_writer 4)).succeeded = false))
    ∧ (4 < (zero_writer 4).pos + (varint_bytes ((5 : Nat) : Int)).length + 5 →
        (ripple_serializeBytes 4 [1, 2, 3, 4, 5] 5 (zero_writer 4)).returned = false)
    ∧ (ripple_serializeInt16 2 FM_type 0x1234 (zero_writer 2)).returned = true
    ∧ (ripple_serializeInt16 2 FM_type 0x1234 (zero_writer 2)).succeeded = false :=
  ⟨⟨by decide, by decide⟩,
    (capacity_outcomes 4 (zero_writer 4) (by decide)).2.2.2.2.1 FM_flags 7 rfl,
    (capacity_outcomes 4 (zero_writer 4) (by decide)).2.2.2.2.2.2.2.2.1 [1, 2, 3, 4, 5] 5
      (by decide),
    (capacity_outcomes 2 (zero_writer 2) (by decide)).2.2.1 FM_type 0x1234 rfl,
    (capacity_outcomes 2 (zero_writer 2) (by decide)).2.2.2.1 FM_type 0x1234 rfl (by decide)⟩

/-! ## C17: the canonical-signature flag -/

theorem take_set_le (l : List Nat) (n k v : Nat) (h : k ≤ n) :
    (l.set n v).take k = l.take k := by
  rcases Nat.lt_or_ge k n with hlt | hge
  · exact List.take_set_of_lt v l hlt
  · have e : k = n := by omega
    subst e
    rw [List.set_eq_take_append_cons_drop]
    split
    · rename_i hk
      exact List.take_left' (by rw [List.length_take]; omega)
    · rfl

theorem store_bytes_take (bs : List Nat) : ∀ (mem : List Nat) (pos k : Nat), k ≤ pos →
    (store_bytes mem pos bs).take k = mem.take k := by
  induction bs with
  | nil => intro mem pos k _; rfl
  | cons b bs ih =>
    intro mem pos k hk
    rw [store_bytes, ih _ _ _ (by omega), take_set_le _ _ _ _ hk]

theorem frame_refl (w : Writer) : w.frame w := ⟨Nat.le_refl _, rfl, rfl⟩

theorem frame_trans (a b c : Writer) (h1 : a.frame b) (h2 : b.frame c) : a.frame c := by
  obtain ⟨p1, l1, t1⟩ := h1
  obtain ⟨p2, l2, t2⟩ := h2
  refine ⟨by omega, by omega, ?_⟩
  have e : c.mem.take a.pos = (c.mem.take b.pos).take a.pos := by
    rw [List.take_take, Nat.min_eq_left p1]
  rw [e, t2, List.take_take, Nat.min_eq_left p1, t1]

theorem stepRel_frame (end_ : Nat) : StepRel end_ Writer.frame where
  refl := frame_refl
  trans := frame_trans
  store := fun w v _ =>
    ⟨by show w.pos ≤ w.pos + 1; omega, List.length_set .., take_set_le _ _ _ _ (Nat.le_refl _)⟩
  copy := fun w bytes count _ =>
    ⟨by show w.pos ≤ w.pos + count; omega, store_bytes_length _ _ _,
      store_bytes_take _ _ _ _ (Nat.le_refl _)⟩

theorem frame_skip (w : Writer) : w.frame ⟨w.mem, w.pos + 20⟩ :=
  ⟨by show w.pos ≤ w.pos + 20; omega, rfl, rfl⟩

theorem ripple_serialize_eq_tail (env : Env) (end_ : Nat) (tx : RippleSignTx)
    (source_address : Option String) (pubkey sig : Option (List Nat)) (w : Writer) :
    ripple_serialize env end_ tx source_address pubkey sig w
      = serialize_tail env end_ tx source_address pubkey sig
          (((Outcome.ret true w).andThen (ripple_serializeInt16 end_ FM_type 0)).andThenIf
            tx.has_flags (ripple_serializeInt32 end_ FM_flags (toInt32 tx.flags))) := rfl

theorem andThenIf_not_success (o : Outcome) (c : Bool) (f : Writer → Outcome)
    (h : o.succeeded = false) : o.andThenIf c f = o := by
  unfold Outcome.andThenIf
  split
  · cases o with
    | abort w => rfl
    | ret ok w =>
      cases ok with
      | false => rfl
      | true => exact absurd h (by simp [Outcome.succeeded])
  · rfl

theorem serialize_tail_not_success (env : Env) (end_ : Nat) (tx : RippleSignTx)
    (source_address : Option String) (pubkey sig : Option (List Nat)) (o : Outcome)
    (h : o.succeeded = false) :
    serialize_tail env end_ tx source_address pubkey sig o = o := by
  unfold serialize_tail
  simp only []
  rw [andThenIf_not_success o _ _ h, andThenIf_not_success o _ _ h,
    andThenIf_not_success o _ _ h, andThenIf_not_success o _ _ h,
    andThenIf_not_success o _ _ h, andThenIf_not_success o _ _ h,
    andThenIf_not_success o _ _ h, andThenIf_not_success o _ _ h,
    andThenIf_not_success o _ _ h]

theorem serialize_tail_frame (env : Env) (end_ : Nat) (tx : RippleSignTx)
    (source_address : Option String) (pubkey sig : Option (List Nat)) (w : Writer) :
    w.frame (serialize_tail env end_ tx source_address pubkey sig (.ret true w)).writer := by
  have hR := stepRel_frame end_
  unfold serialize_tail
  simp only []
  exact rel_andThenIf hR w _ _ _
    (rel_andThenIf hR w _ _ _
      (rel_andThenIf hR w _ _ _
        (rel_andThenIf hR w _ _ _
          (rel_andThenIf hR w _ _ _
            (rel_andThenIf hR w _ _ _
              (rel_andThenIf hR w _ _ _
                (rel_andThenIf hR w _ _ _
                  (rel_andThenIf hR w _ _ _ (frame_refl w)
                    (fun w1 => rel_serializeInt32 hR _ _ w1))
                  (fun w1 => rel_serializeInt32 hR _ _ w1))
                (fun w1 => rel_serializeInt32 hR _ _ w1))
              (fun w1 => rel_serializeAmount hR _ _ w1))
            (fun w1 => rel_serializeAmount hR _ _ w1))
          (fun w1 => rel_serializeVL hR _ _ _ w1))
        (fun w1 => rel_serializeVL hR _ _ _ w1))
      (fun w1 => rel_serializeAddress hR frame_skip env _ _ w1))
    (fun w1 => rel_serializeAddress hR frame_skip env _ _ w1)

theorem ripple_serialize_header {env : Env} {end_ : Nat} {tx : RippleSignTx}
    {source_address : Option String} {pubkey sig : Option (List Nat)} {w w1 : Writer}
    (hfl : tx.has_flags = true)
    (h : ripple_serialize env end_ tx source_address pubkey sig w = .ret true w1) :
    w.pos + 8 ≤ end_ ∧ w.pos + 8 ≤ w1.pos ∧ w1.mem.length = w.mem.length
      ∧ w1.mem.take (w.pos + 8)
          = (w.append ([0x12, 0x00, 0x00, 0x22] ++ be32 tx.flags)).mem.take (w.pos + 8) := by
  rw [ripple_serialize_eq_tail] at h
  generalize ho : ((Outcome.ret true w).andThen (ripple_serializeInt16 end_ FM_type 0)).andThenIf
      tx.has_flags (ripple_serializeInt32 end_ FM_flags (toInt32 tx.flags)) = o2 at h
  cases hs : o2.succeeded with
  | false =>
    rw [serialize_tail_not_success _ _ _ _ _ _ _ hs] at h
    rw [h] at hs
    exact absurd hs (by simp [Outcome.succeeded])
  | true =>
    obtain ⟨w2, hw2⟩ := (succeeded_iff o2).mp hs
    subst hw2
    have hfr := serialize_tail_frame env end_ tx source_address pubkey sig w2
    rw [h] at hfr
    obtain ⟨p, l, t⟩ : w2.frame w1 := hfr
    rw [hfl] at ho
    unfold Outcome.andThenIf at ho
    rw [if_pos rfl] at ho
    obtain ⟨wa, h16, h32⟩ := andThen_true ho
    rw [Outcome.ret_true_andThen] at h16
    obtain ⟨c16, e16⟩ := ripple_serializeInt16_true h16
    obtain ⟨c32, e32⟩ := ripple_serializeInt32_true rfl h32
    have ht : tag_bytes FM_flags = [0x22] := by decide
    subst e16
    rw [ht] at c32 e32
    rw [Writer.append_append] at e32
    simp only [Writer.append_pos, List.length_cons, List.length_nil] at c32
    have hp2 : w2.pos = w.pos + 8 := by
      rw [e32]
      simp only [Writer.append_pos, List.length_append, List.length_cons, List.length_nil,
        be32_length]
    have hl2 : w2.mem.length = w.mem.length := by
      rw [e32, Writer.append_mem_length]
    refine ⟨by omega, by omega, by omega, ?_⟩
    rw [← hp2, t, e32]
    rfl

theorem append_mem_take (w : Writer) (bs : List Nat) (h : w.pos + bs.length ≤ w.mem.length) :
    (w.append bs).mem.take (w.pos + bs.length) = w.mem.take w.pos ++ bs := by
  rw [Writer.append_eq_appended w bs h]
  show (w.mem.take w.pos ++ bs ++ w.mem.drop (w.pos + bs.length)).take (w.pos + bs.length) = _
  exact List.take_left' (by rw [List.length_append, List.length_take]; omega)

theorem ripple_signTx_tx (env : Env) (node : HDNode) (tx : RippleSignTx)
    (resp : RippleSignedTx) (hc : env.curve_found = true) :
    (ripple_signTx env node tx resp).tx = set_canonical env tx := by
  unfold ripple_signTx
  rw [hc]
  simp only [Bool.not_true, Bool.false_eq_true, if_false]
  split
  · rfl
  · split
    · rfl
    · rfl
    · split <;> rfl

theorem ripple_signTx_hashed (env : Env) (node : HDNode) (tx : RippleSignTx)
    (resp : RippleSignedTx) (hashed : List Nat)
    (h : (ripple_signTx env node tx resp).hashed = some hashed) :
    ∃ addr w, ripple_getAddress env node = some addr
      ∧ first_pass env node (set_canonical env tx) addr = .ret true w
      ∧ hashed = w.mem.take w.pos := by
  unfold ripple_signTx at h
  split at h
  · exact absurd h (by simp)
  · simp only [] at h
    split at h
    · exact absurd h (by simp)
    · rename_i addr ha
      split at h
      · exact absurd h (by simp)
      · exact absurd h (by simp)
      · rename_i w hw
        refine ⟨addr, w, ha, hw, ?_⟩
        split at h <;> exact (Option.some.inj h).symm

theorem ripple_signTx_emitted (env : Env) (node : HDNode) (tx : RippleSignTx)
    (resp : RippleSignedTx) (h2 : resp.has_serialized_tx = false)
    (h : (ripple_signTx env node tx resp).resp.has_serialized_tx = true) :
    ∃ addr w w1, ripple_getAddress env node = some addr
      ∧ first_pass env node (set_canonical env tx) addr = .ret true w
      ∧ final_pass env node (set_canonical env tx) addr
          (ripple_signTx env node tx resp).resp.signature_bytes = .ret true w1
      ∧ (ripple_signTx env node tx resp).hashed = some (w.mem.take w.pos)
      ∧ (ripple_signTx env node tx resp).resp.serialized_tx_bytes = w1.mem
      ∧ (ripple_signTx env node tx resp).resp.serialized_tx_size = w1.pos
      ∧ (ripple_signTx env node tx resp).resp.signature_bytes
          = env.ecdsa_sig_to_der (env.ecdsa_sign_digest node.private_key
              ((env.sha512_Raw (w.mem.take w.pos)).take 32)).2
            ++ resp.signature_bytes.drop (env.ecdsa_sig_to_der
              (env.ecdsa_sign_digest node.private_key
                ((env.sha512_Raw (w.mem.take w.pos)).take 32)).2).length := by
  unfold ripple_signTx at h ⊢
  split at h
  · exact absurd h (by simp [h2])
  · rename_i hcf
    rw [if_neg hcf]
    try simp only [] at h
    try simp only []
    split at h
    · exact absurd h (by simp [RippleSignedTx.withBytes, h2])
    · rename_i addr ha
      rw [ha]
      try simp only []
      split at h
      · exact absurd h (by simp [RippleSignedTx.withBytes, h2])
      · exact absurd h (by simp [RippleSignedTx.withBytes, h2])
      · rename_i w hw
        try rw [hw]
        try simp only [] at h
        try simp only []
        split at h
        · exact absurd h (by simp [RippleSignedTx.withBytes, RippleSignedTx.withSignature, h2])
        · exact absurd h (by simp [RippleSignedTx.withBytes, RippleSignedTx.withSignature, h2])
        · rename_i w1 hw1
          try rw [hw1]
          exact ⟨addr, w, w1, rfl, hw, hw1, rfl, rfl, rfl, rfl⟩

theorem first_pass_header {env : Env} {node : HDNode} {tx : RippleSignTx} {addr : String}
    {w : Writer} (hfl : tx.has_flags = true)
    (h : first_pass env node tx addr = .ret true w) :
    12 ≤ env.bytes_size
      ∧ ((w.mem.take w.pos).drop 4).take 8 = [0x12, 0x00, 0x00, 0x22] ++ be32 tx.flags := by
  unfold first_pass at h
  obtain ⟨c, p, l, t⟩ := ripple_serialize_header hfl h
  simp only [List.length_append, List.length_cons, List.length_nil, List.length_replicate]
    at c p l t
  have hN : 12 ≤ env.bytes_size := by omega
  refine ⟨hN, ?_⟩
  have ha := append_mem_take
    ⟨[0x53, 0x54, 0x58, 0x00] ++ List.replicate (env.bytes_size - 4) 0, 4⟩
    ([0x12, 0x00, 0x00, 0x22] ++ be32 tx.flags)
    (by simp only [List.length_append, List.length_cons, List.length_nil,
          List.length_replicate, be32_length]; omega)
  simp only [List.length_append, List.length_cons, List.length_nil, be32_length] at ha
  rw [ha] at t
  rw [List.take_drop, List.take_take, Nat.min_eq_left (by omega), t]
  rfl

theorem final_pass_header {env : Env} {node : HDNode} {tx : RippleSignTx} {addr : String}
    {sigb : List Nat} {w : Writer} (hfl : tx.has_flags = true) (hN : 8 ≤ env.bytes_size)
    (h : final_pass env node tx addr sigb = .ret true w) :
    (w.mem.take w.pos).take 8 = [0x12, 0x00, 0x00, 0x22] ++ be32 tx.flags := by
  unfold final_pass at h
  obtain ⟨c, p, l, t⟩ := ripple_serialize_header hfl h
  simp only [Nat.zero_add] at c p l t
  have ha := append_mem_take ⟨List.replicate env.bytes_size 0, 0⟩
    ([0x12, 0x00, 0x00, 0x22] ++ be32 tx.flags)
    (by simp only [List.length_append, List.length_cons, List.length_nil,
          List.length_replicate, be32_length]; omega)
  simp only [List.length_append, List.length_cons, List.length_nil, be32_length,
    Nat.zero_add, List.take_zero, List.nil_append] at ha
  rw [ha] at t
  rw [List.take_take, Nat.min_eq_left (by omega), t]

/-- C17. For every request passed to `ripple_signTx` when the curve lookup
succeeds (flags and the canonical bit being 32-bit values): afterwards the
flags field is present and equals the caller's flags if they were present,
otherwise 0, with the canonical bit or-ed in, every other bit unchanged; and
both serializations `ripple_signTx` produces, the one it hashes (after the
four-byte tag) and the final one, carry right after the TransactionType field
12 00 00 the Flags field: the tag 22 and the four big-endian bytes of that
value. -/
theorem ripple_signTx_canonical_flag (env : Env) (node : HDNode) (tx : RippleSignTx)
    (resp : RippleSignedTx)
    (hc : env.curve_found = true) (hf : tx.flags < 2 ^ 32)
    (hF : env.RIPPLE_FLAG_FULLY_CANONICAL < 2 ^ 32)
    (h2 : resp.has_serialized_tx = false) :
    (ripple_signTx env node tx resp).tx.has_flags = true
    ∧ (ripple_signTx env node tx resp).tx.flags
        = (if tx.has_flags then tx.flags else 0) ||| env.RIPPLE_FLAG_FULLY_CANONICAL
    ∧ (∀ i, (ripple_signTx env node tx resp).tx.flags.testBit i
        = ((if tx.has_flags then tx.flags else 0).testBit i
            || env.RIPPLE_FLAG_FULLY_CANONICAL.testBit i))
    ∧ (∀ hashed, (ripple_signTx env node tx resp).hashed = some hashed →
        (hashed.drop 4).take 8
          = [0x12, 0x00, 0x00, 0x22] ++ be32 (ripple_signTx env node tx resp).tx.flags)
    ∧ ((ripple_signTx env node tx resp).resp.has_serialized_tx = true →
        ((ripple_signTx env node tx resp).resp.serialized_tx_bytes.take
            (ripple_signTx env node tx resp).resp.serialized_tx_size).take 8
          = [0x12, 0x00, 0x00, 0x22] ++ be32 (ripple_signTx env node tx resp).tx.flags) := by
  have htx := ripple_signTx_tx env node tx resp hc
  have hfl : (set_canonical env tx).has_flags = true := rfl
  have hflags : (set_canonical env tx).flags
      = (if tx.has_flags then tx.flags else 0) ||| env.RIPPLE_FLAG_FULLY_CANONICAL := by
    unfold set_canonical
    simp only []
    cases tx.has_flags
    · simp only [Bool.not_false, if_true, Bool.false_eq_true, if_false]
      exact Nat.mod_eq_of_lt (Nat.or_lt_two_pow (by omega) hF)
    · simp only [Bool.not_true, Bool.false_eq_true, if_false, if_true]
      exact Nat.mod_eq_of_lt (Nat.or_lt_two_pow hf hF)
  rw [htx]
  refine ⟨hfl, hflags, ?_, ?_, ?_⟩
  · intro i
    rw [hflags, Nat.testBit_or]
  · intro hashed hh
    obtain ⟨addr, w, -, hw, e⟩ := ripple_signTx_hashed env node tx resp hashed hh
    rw [e]
    exact (first_pass_header hfl hw).2
  · intro hs
    obtain ⟨addr, w, w1, -, hw, hw1, -, eb, es, -⟩ :=
      ripple_signTx_emitted env node tx resp h2 hs
    rw [eb, es]
    have hN := (first_pass_header hfl hw).1
    exact final_pass_header hfl (by omega) hw1

/-- C17, at a request without flags: the flags become 0x80000000 and both
serializations carry 12 00 00 22 80 00 00 00. -/
theorem ripple_signTx_canonical_flag_witness :
    ((sign_env 0 256 258).curve_found = true ∧ tx_seq1_amount100.flags < 2 ^ 32
      ∧ (sign_env 0 256 258).RIPPLE_FLAG_FULLY_CANONICAL < 2 ^ 32
      ∧ (clear_resp 256).has_serialized_tx = false)
    ∧ ((ripple_signTx (sign_env 0 256 258) demo_node tx_seq1_amount100
          (clear_resp 256)).tx.has_flags = true
      ∧ (ripple_signTx (sign_env 0 256 258) demo_node tx_seq1_amount100
          (clear_resp 256)).tx.flags
          = (if tx_seq1_amount100.has_flags then tx_seq1_amount100.flags else 0)
              ||| (sign_env 0 256 258).RIPPLE_FLAG_FULLY_CANONICAL
      ∧ (∀ i, (ripple_signTx (sign_env 0 256 258) demo_node tx_seq1_amount100
          (clear_resp 256)).tx.flags.testBit i
          = ((if tx_seq1_amount100.has_flags then tx_seq1_amount100.flags else 0).testBit i
              || (sign_env 0 256 258).RIPPLE_FLAG_FULLY_CANONICAL.testBit i))
      ∧ (∀ hashed, (ripple_signTx (sign_env 0 256 258) demo_node tx_seq1_amount100
          (clear_resp 256)).hashed = some hashed →
          (hashed.drop 4).take 8
            = [0x12, 0x00, 0x00, 0x22] ++ be32 (ripple_signTx (sign_env 0 256 258) demo_node
                tx_seq1_amount100 (clear_resp 256)).tx.flags)
      ∧ ((ripple_signTx (sign_env 0 256 258) demo_node tx_seq1_amount100
          (clear_resp 256)).resp.has_serialized_tx = true →
          ((ripple_signTx (sign_env 0 256 258) demo_node tx_seq1_amount100
              (clear_resp 256)).resp.serialized_tx_bytes.take
              (ripple_signTx (sign_env 0 256 258) demo_node tx_seq1_amount100
                (clear_resp 256)).resp.serialized_tx_size).take 8
            = [0x12, 0x00, 0x00, 0x22] ++ be32 (ripple_signTx (sign_env 0 256 258) demo_node
                tx_seq1_amount100 (clear_resp 256)).tx.flags))
    ∧ (ripple_signTx (sign_env 0 256 258) demo_node tx_seq1_amount100
        (clear_resp 256)).tx.flags = 0x80000000
    ∧ be32 0x80000000 = [0x80, 0x00, 0x00, 0x00]
    ∧ (ripple_signTx (sign_env 0 256 258) demo_node tx_seq1_amount100
        (clear_resp 256)).resp.has_serialized_tx = true :=
  ⟨⟨by decide, by decide, by decide, by decide⟩,
    ripple_signTx_canonical_flag (sign_env 0 256 258) demo_node tx_seq1_amount100
      (clear_resp 256) (by decide) (by decide) (by decide) (by decide),
    by decide, by decide, by decide⟩

/-! ## C18: the output as a function of the inputs -/

/-- C18 (code at the failing input). Two runs of `ripple_serialize` on the
same request (a destination address and nothing else), on destinations of the
same capacity, one filled with 00 and one with FF, both succeed with output
length 23, and their outputs differ: after 12 00 00 come the 20 bytes the
destination held before the run. -/
theorem ripple_serialize_output_depends_on_destination :
    ripple_serialize plain_env 32 tx_only_destination none none none (zero_writer 32)
        = .ret true ⟨[0x12, 0x00, 0x00] ++ List.replicate 29 0, 23⟩
    ∧ ripple_serialize plain_env 32 tx_only_destination none none none (ff_writer 32)
        = .ret true ⟨[0x12, 0x00, 0x00] ++ List.replicate 29 0xFF, 23⟩
    ∧ (ripple_serialize plain_env 32 tx_only_destination none none none
          (zero_writer 32)).writer.mem.take 23
        ≠ (ripple_serialize plain_env 32 tx_only_destination none none none
          (ff_writer 32)).writer.mem.take 23 := by
  refine ⟨by decide, by decide, by decide⟩

/-! ## C19: what is signed and what is emitted -/

theorem apply_segs_append (w : Writer) (a b : List Seg) :
    apply_segs (apply_segs w a) b = apply_segs w (a ++ b) := by
  unfold apply_segs
  rw [List.foldl_append]

theorem render_append (a b : List Seg) : render (a ++ b) = render a ++ render b := by
  induction a with
  | nil => rfl
  | cons s rest ih =>
    show s.render ++ render (rest ++ b) = (s.render ++ render rest) ++ render b
    rw [ih, List.append_assoc]

theorem apply_segs_pos (segs : List Seg) : ∀ w : Writer,
    (apply_segs w segs).pos = w.pos + (render segs).length := by
  induction segs with
  | nil => intro w; rfl
  | cons s rest ih =>
    intro w
    show (apply_segs (s.apply w) rest).pos = _
    rw [ih]
    cases s with
    | bytes bs =>
      simp only [Seg.apply, Writer.append_pos, render, Seg.render, List.length_append]
      omega
    | skip n =>
      simp only [Seg.apply, render, Seg.render, List.length_append, List.length_replicate]
      omega

theorem apply_segs_out (segs : List Seg) : ∀ w : Writer, w.clean →
    w.pos + (render segs).length ≤ w.mem.length →
    (apply_segs w segs).mem.take (apply_segs w segs).pos = w.mem.take w.pos ++ render segs := by
  induction segs with
  | nil =>
    intro w _ _
    show w.mem.take w.pos = _
    simp only [render, List.append_nil]
  | cons s rest ih =>
    intro w hcl hfit
    simp only [render, List.length_append] at hfit
    show (apply_segs (s.apply w) rest).mem.take (apply_segs (s.apply w) rest).pos = _
    unfold Writer.clean at hcl
    cases s with
    | bytes bs =>
      simp only [Seg.render] at hfit
      have hin : w.pos + bs.length ≤ w.mem.length := by omega
      have hm : (w.append bs).mem
          = w.mem.take w.pos ++ bs ++ w.mem.drop (w.pos + bs.length) := by
        rw [Writer.append_eq_appended w bs hin]; rfl
      have hcl1 : (w.append bs).clean := by
        unfold Writer.clean
        rw [Writer.append_mem_length, Writer.append_pos, hm]
        have hl : (w.mem.take w.pos ++ bs).length = w.pos + bs.length := by
          rw [List.length_append, List.length_take]; omega
        rw [List.drop_left' hl, ← List.drop_drop, hcl, List.drop_replicate]
        congr 1
        omega
      have h1 := ih (w.append bs) hcl1
        (by rw [Writer.append_pos, Writer.append_mem_length]; omega)
      simp only [Seg.apply]
      rw [h1, Writer.append_pos, append_mem_take w bs hin]
      simp only [render, Seg.render, List.append_assoc]
    | skip n =>
      simp only [Seg.render, List.length_replicate] at hfit
      have hcl1 : Writer.clean ⟨w.mem, w.pos + n⟩ := by
        unfold Writer.clean
        show w.mem.drop (w.pos + n) = List.replicate (w.mem.length - (w.pos + n)) 0
        rw [← List.drop_drop, hcl, List.drop_replicate]
        congr 1
        omega
      have h1 := ih ⟨w.mem, w.pos + n⟩ hcl1 (by show w.pos + n + _ ≤ w.mem.length; omega)
      simp only [Seg.apply]
      rw [h1]
      show w.mem.take (w.pos + n) ++ render rest = _
      have ht : w.mem.take (w.pos + n) = w.mem.take w.pos ++ List.replicate n 0 := by
        rw [List.take_add, hcl, List.take_replicate]
        congr 2
        omega
      rw [ht]
      simp only [render, Seg.render, List.append_assoc]

theorem apply_segs_bytes (w : Writer) (bs : List Nat) :
    apply_segs w [Seg.bytes bs] = w.append bs := rfl

theorem apply_segs_one (w : Writer) (s : Seg) : apply_segs w [s] = s.apply w := rfl

theorem apply_segs_nil (w : Writer) : apply_segs w [] = w := rfl

theorem memcpy_advance_eq (bytes : List Nat) (count : Nat) (w : Writer)
    (h : count ≤ bytes.length) : memcpy_advance bytes count w = w.append (bytes.take count) := by
  unfold memcpy_advance Writer.append
  rw [List.length_take, Nat.min_eq_left h]

theorem ripple_serializeVL_true {end_ : Nat} {m : FieldMapping} {bytes : List Nat}
    {count : Nat} {w w1 : Writer} (hc : count < 918744) (hlen : count ≤ bytes.length)
    (h : ripple_serializeVL end_ m bytes count w = .ret true w1) :
    w1 = w.append (tag_bytes m ++ (varint_bytes count ++ bytes.take count)) := by
  unfold ripple_serializeVL at h
  rw [Outcome.ret_true_andThen] at h
  obtain ⟨w0, h0, h1⟩ := andThen_true h
  have e0 := (ripple_serializeType_true h0).2
  have e1 := (ripple_serializeBytes_true hc h1).2
  rw [e1, memcpy_advance_eq bytes count _ hlen, e0, Writer.append_append, Writer.append_append]

theorem ripple_serializeAddress_true {env : Env} {end_ : Nat} {m : FieldMapping}
    {address : String} {w w1 : Writer}
    (h : ripple_serializeAddress env end_ m address w = .ret true w1) :
    w1 = (address_seg env address).apply w := by
  unfold ripple_serializeAddress at h
  unfold address_seg
  by_cases hl : (env.base58_decode_check address).length ≠ 20
  · simp only [] at h
    rw [if_pos hl] at h
    rw [if_pos hl]
    exact ((Outcome.ret.inj h).2).symm
  · simp only [] at h
    rw [if_neg hl] at h
    rw [if_neg hl]
    have hl20 : (env.base58_decode_check address).length = 20 := not_not.mp hl
    rw [hl20] at h
    have e1 := (@ripple_serializeBytes_true end_ _ 19 w w1 (by decide) h).2
    have hv : varint_bytes ((19 : Nat) : Int) = [19] := by decide
    rw [e1, memcpy_advance_eq _ 19 _ (by rw [List.length_drop, hl20]), hv,
      Writer.append_append]
    rfl

theorem andThenIf_segs {o : Outcome} {c : Bool} {f : Writer → Outcome} {w1 : Writer}
    (segs : List Seg)
    (hstep : c = true → ∀ w0, f w0 = .ret true w1 → w1 = apply_segs w0 segs)
    (h : o.andThenIf c f = .ret true w1) :
    ∃ w0, o = .ret true w0 ∧ w1 = apply_segs w0 (if c then segs else []) := by
  unfold Outcome.andThenIf at h
  cases c with
  | false => exact ⟨w1, h, rfl⟩
  | true =>
    obtain ⟨w0, h0, h1⟩ := andThen_true h
    exact ⟨w0, h0, hstep rfl w0 h1⟩

theorem serialize_step_int32 {end_ : Nat} {m : FieldMapping} {v : Nat} {w0 w1 : Writer}
    (t : List Nat) (hm : m.type = FT_INT32) (ht : tag_bytes m = t)
    (h : ripple_serializeInt32 end_ m (toInt32 v) w0 = .ret true w1) :
    w1 = apply_segs w0 [Seg.bytes (t ++ be32 v)] := by
  rw [apply_segs_bytes, ← ht]
  exact (ripple_serializeInt32_true hm h).2

theorem serialize_step_amount {end_ : Nat} {a : Int} {w0 w1 : Writer}
    (h : ripple_serializeAmount end_ FM_amount a w0 = .ret true w1) :
    w1 = apply_segs w0 [Seg.bytes ([0x61] ++ be64 (a.toNat + 2 ^ 62))] := by
  have ht : tag_bytes FM_amount = [0x61] := by decide
  rw [apply_segs_bytes, ← ht]
  exact (ripple_serializeAmount_true h).2.2

theorem serialize_step_vl {end_ : Nat} {m : FieldMapping} {bytes : List Nat} {count : Nat}
    {w0 w1 : Writer} (t v : List Nat) (hc : count < 918744) (hlen : count ≤ bytes.length)
    (ht : tag_bytes m = t) (hv : varint_bytes count = v)
    (h : ripple_serializeVL end_ m bytes count w0 = .ret true w1) :
    w1 = apply_segs w0 [Seg.bytes (t ++ v ++ bytes.take count)] := by
  rw [apply_segs_bytes, ← ht, ← hv, List.append_assoc]
  exact ripple_serializeVL_true hc hlen h

theorem ripple_serialize_true {env : Env} {end_ : Nat} {tx : RippleSignTx}
    {source_address : Option String} {pubkey sig : Option (List Nat)} {w w1 : Writer}
    (hpk : pubkey.isSome = true → 33 ≤ (pubkey.getD []).length)
    (hsig : sig.isSome = true → 64 ≤ (sig.getD []).length)
    (h : ripple_serialize env end_ tx source_address pubkey sig w = .ret true w1) :
    w1 = apply_segs w (head_segs tx pubkey ++ sig_segs sig
          ++ address_segs env tx source_address) := by
  unfold ripple_serialize at h
  simp only [] at h
  obtain ⟨w10, h, e10⟩ := andThenIf_segs [address_seg env tx.payment.destination]
    (fun _ w0 hf => by rw [apply_segs_one]; exact ripple_serializeAddress_true hf) h
  obtain ⟨w9, h, e9⟩ := andThenIf_segs [address_seg env (source_address.getD "")]
    (fun _ w0 hf => by rw [apply_segs_one]; exact ripple_serializeAddress_true hf) h
  obtain ⟨w8, h, e8⟩ := andThenIf_segs [Seg.bytes ([0x74] ++ [64] ++ (sig.getD []).take 64)]
    (fun hc w0 hf => serialize_step_vl [0x74] [64] (by decide) (hsig hc) (by decide)
      (by decide) hf) h
  obtain ⟨w7, h, e7⟩ := andThenIf_segs [Seg.bytes ([0x73] ++ [33] ++ (pubkey.getD []).take 33)]
    (fun hc w0 hf => serialize_step_vl [0x73] [33] (by decide) (hpk hc) (by decide)
      (by decide) hf) h
  obtain ⟨w6, h, e6⟩ := andThenIf_segs
    [Seg.bytes ([0x61] ++ be64 ((toInt64 tx.fee).toNat + 2 ^ 62))]
    (fun _ w0 hf => serialize_step_amount hf) h
  obtain ⟨w5, h, e5⟩ := andThenIf_segs
    [Seg.bytes ([0x61] ++ be64 ((toInt64 tx.payment.amount).toNat + 2 ^ 62))]
    (fun _ w0 hf => serialize_step_amount hf) h
  obtain ⟨w4, h, e4⟩ := andThenIf_segs
    [Seg.bytes ([0x20, 0x1B] ++ be32 tx.last_ledger_sequence)]
    (fun _ w0 hf => serialize_step_int32 [0x20, 0x1B] rfl (by decide) hf) h
  obtain ⟨w3, h, e3⟩ := andThenIf_segs
    [Seg.bytes ([0x2E] ++ be32 tx.payment.destination_tag)]
    (fun _ w0 hf => serialize_step_int32 [0x2E] rfl (by decide) hf) h
  obtain ⟨w2, h, e2⟩ := andThenIf_segs
    [Seg.bytes ([0x24] ++ be32 tx.sequence)]
    (fun _ w0 hf => serialize_step_int32 [0x24] rfl (by decide) hf) h
  obtain ⟨w1a, h, e1⟩ := andThenIf_segs
    [Seg.bytes ([0x22] ++ be32 tx.flags)]
    (fun _ w0 hf => serialize_step_int32 [0x22] rfl (by decide) hf) h
  rw [Outcome.ret_true_andThen] at h
  have e0 := (ripple_serializeInt16_true h).2
  rw [← apply_segs_bytes] at e0
  rw [e10, e9, e8, e7, e6, e5, e4, e3, e2, e1, e0]
  simp only [apply_segs_append]
  unfold address_segs
  rw [← List.append_assoc]
  rfl

theorem render_body_head (tx : RippleSignTx) : ∃ t, render (body_segs tx) = 0x12 :: t := by
  unfold body_segs
  simp only [render_append, List.append_assoc]
  exact ⟨_, rfl⟩

theorem render_pubkey_segs (pk : List Nat) (h : pk.length = 33) :
    render (pubkey_segs (some pk)) = [0x73, 0x21] ++ pk := by
  have ht : pk.take 33 = pk := List.take_of_length_le (by omega)
  show [0x73] ++ [33] ++ pk.take 33 ++ [] = _
  rw [ht, List.append_nil]
  rfl

theorem render_sig_segs (sig : List Nat) :
    render (sig_segs (some sig)) = [0x74, 0x40] ++ sig.take 64 := by
  show [0x74] ++ [64] ++ sig.take 64 ++ [] = _
  rw [List.append_nil]
  rfl

theorem render_sig_segs_none : render (sig_segs none) = [] := rfl

theorem zero_start_clean (n : Nat) : Writer.clean ⟨List.replicate n 0, 0⟩ := by
  unfold Writer.clean
  show (List.replicate n 0).drop 0 = List.replicate ((List.replicate n 0).length - 0) 0
  rw [List.drop_zero, List.length_replicate, Nat.sub_zero]

theorem tagged_start_clean (tag : List Nat) (n : Nat) :
    Writer.clean ⟨tag ++ List.replicate n 0, tag.length⟩ := by
  unfold Writer.clean
  show (tag ++ List.replicate n 0).drop tag.length
    = List.replicate ((tag ++ List.replicate n 0).length - tag.length) 0
  rw [List.drop_left, List.length_append, List.length_replicate, Nat.add_sub_cancel_left]

/-- C19. For every run of `ripple_signTx` that completes (the response being
marked as carrying a serialized transaction, which it was not at entry) and
whose output lies inside the transaction array, the node having a 33-byte
public key and the signature array at least 64 bytes: the byte string given to
the hash is the content of the working buffer up to the cursor of the first
pass, namely the four bytes 53 54 58 00 followed by the first-pass
serialization `pre ++ post` and nothing else; the emitted transaction is
`pre`, then the TxnSignature field (tag 74, length 40, 64 bytes of payload),
then `post`, where `pre` ends with the SigningPubKey field; and the emitted
transaction does not start with 53 54 58 00. -/
theorem ripple_signTx_signs_what_it_emits (env : Env) (node : HDNode) (tx : RippleSignTx)
    (resp : RippleSignedTx)
    (h2 : resp.has_serialized_tx = false)
    (hpk : node.public_key.length = 33)
    (hsa : 64 ≤ resp.signature_bytes.length)
    (hok : (ripple_signTx env node tx resp).resp.has_serialized_tx = true)
    (hfit : (ripple_signTx env node tx resp).resp.serialized_tx_size ≤ env.bytes_size) :
    ∃ addr w pre post,
      ripple_getAddress env node = some addr
      ∧ first_pass env node (set_canonical env tx) addr = .ret true w
      ∧ w.mem.take w.pos = [0x53, 0x54, 0x58, 0x00] ++ (pre ++ post)
      ∧ w.pos = 4 + (pre ++ post).length
      ∧ (ripple_signTx env node tx resp).hashed
          = some ([0x53, 0x54, 0x58, 0x00] ++ (pre ++ post))
      ∧ (ripple_signTx env node tx resp).resp.serialized_tx_bytes.take
            (ripple_signTx env node tx resp).resp.serialized_tx_size
          = pre ++ ([0x74, 0x40]
              ++ (ripple_signTx env node tx resp).resp.signature_bytes.take 64) ++ post
      ∧ (∃ pre0, pre = pre0 ++ ([0x73, 0x21] ++ node.public_key))
      ∧ ((ripple_signTx env node tx resp).resp.serialized_tx_bytes.take
            (ripple_signTx env node tx resp).resp.serialized_tx_size).take 4
          ≠ [0x53, 0x54, 0x58, 0x00] := by
  obtain ⟨addr, w, w1, haddr, hfirst, hfinal, hhash, hbytes, hsize, hsigb⟩ :=
    ripple_signTx_emitted env node tx resp h2 hok
  have hslen : 64 ≤ (ripple_signTx env node tx resp).resp.signature_bytes.length := by
    rw [hsigb, List.length_append, List.length_drop]
    omega
  rw [hbytes, hsize]
  rw [hsize] at hfit
  generalize (ripple_signTx env node tx resp).resp.signature_bytes = S at hfinal hslen ⊢
  generalize set_canonical env tx = tx1 at hfirst hfinal ⊢
  have e1 := ripple_serialize_true
    (fun _ => by show 33 ≤ node.public_key.length; omega)
    (fun hc => absurd hc (by decide)) hfirst
  have e2 := ripple_serialize_true
    (fun _ => by show 33 ≤ node.public_key.length; omega)
    (fun _ => by show 64 ≤ S.length; exact hslen) hfinal
  have hH : ∃ pre0, render (head_segs tx1 (some node.public_key))
      = pre0 ++ ([0x73, 0x21] ++ node.public_key) := by
    refine ⟨render (body_segs tx1), ?_⟩
    unfold head_segs
    rw [render_append, render_pubkey_segs _ hpk]
  obtain ⟨t, ht⟩ := render_body_head tx1
  have hHt : ∃ t1, render (head_segs tx1 (some node.public_key)) = 0x12 :: t1 := by
    refine ⟨t ++ render (pubkey_segs (some node.public_key)), ?_⟩
    unfold head_segs
    rw [render_append, ht]
    rfl
  have hr1 : render (head_segs tx1 (some node.public_key) ++ sig_segs none
        ++ address_segs env tx1 (some addr))
      = render (head_segs tx1 (some node.public_key))
          ++ render (address_segs env tx1 (some addr)) := by
    rw [render_append, render_append, render_sig_segs_none, List.append_nil]
  have hr2 : render (head_segs tx1 (some node.public_key) ++ sig_segs (some S)
        ++ address_segs env tx1 (some addr))
      = render (head_segs tx1 (some node.public_key)) ++ ([0x74, 0x40] ++ S.take 64)
          ++ render (address_segs env tx1 (some addr)) := by
    rw [render_append, render_append, render_sig_segs]
  have hp2 := apply_segs_pos (head_segs tx1 (some node.public_key) ++ sig_segs (some S)
    ++ address_segs env tx1 (some addr)) ⟨List.replicate env.bytes_size 0, 0⟩
  rw [← e2, hr2] at hp2
  have hl2 : (render (head_segs tx1 (some node.public_key)) ++ ([0x74, 0x40] ++ S.take 64)
        ++ render (address_segs env tx1 (some addr))).length
      = (render (head_segs tx1 (some node.public_key))).length + 66
          + (render (address_segs env tx1 (some addr))).length := by
    rw [List.length_append, List.length_append, List.length_append, List.length_take,
      Nat.min_eq_left hslen]
    rfl
  rw [hl2] at hp2
  have hout2 := apply_segs_out (head_segs tx1 (some node.public_key) ++ sig_segs (some S)
    ++ address_segs env tx1 (some addr)) ⟨List.replicate env.bytes_size 0, 0⟩
    (zero_start_clean env.bytes_size)
    (by
      rw [hr2, hl2]
      show 0 + _ ≤ (List.replicate env.bytes_size 0).length
      rw [List.length_replicate]
      have hp2a : w1.pos = 0 + ((render (head_segs tx1 (some node.public_key))).length + 66
          + (render (address_segs env tx1 (some addr))).length) := hp2
      omega)
  rw [← e2, hr2] at hout2
  have hp1 := apply_segs_pos (head_segs tx1 (some node.public_key) ++ sig_segs none
    ++ address_segs env tx1 (some addr))
    ⟨[0x53, 0x54, 0x58, 0x00] ++ List.replicate (env.bytes_size - 4) 0, 4⟩
  rw [← e1, hr1] at hp1
  have hout1 := apply_segs_out (head_segs tx1 (some node.public_key) ++ sig_segs none
    ++ address_segs env tx1 (some addr))
    ⟨[0x53, 0x54, 0x58, 0x00] ++ List.replicate (env.bytes_size - 4) 0, 4⟩
    (tagged_start_clean [0x53, 0x54, 0x58, 0x00] (env.bytes_size - 4))
    (by
      rw [hr1, List.length_append]
      show 4 + _ ≤ ([0x53, 0x54, 0x58, 0x00] ++ List.replicate (env.bytes_size - 4) 0).length
      rw [List.length_append, List.length_replicate]
      show 4 + _ ≤ 4 + (env.bytes_size - 4)
      have hp2a : w1.pos = 0 + ((render (head_segs tx1 (some node.public_key))).length + 66
          + (render (address_segs env tx1 (some addr))).length) := hp2
      omega)
  rw [← e1, hr1] at hout1
  generalize render (head_segs tx1 (some node.public_key)) = pre at hH hHt hout1 hout2 hp1
  generalize render (address_segs env tx1 (some addr)) = post at hout1 hout2 hp1
  have hout1a : w.mem.take w.pos = [0x53, 0x54, 0x58, 0x00] ++ (pre ++ post) := hout1
  have hout2a : w1.mem.take w1.pos = pre ++ ([0x74, 0x40] ++ S.take 64) ++ post := hout2
  refine ⟨addr, w, pre, post, haddr, ?_, hout1a, hp1, ?_, hout2a, hH, ?_⟩
  · exact hfirst
  · rw [hhash, hout1a]
  · obtain ⟨t1, ht1⟩ := hHt
    rw [hout2a, ht1]
    intro hcontra
    exact absurd (List.cons.inj hcontra).1 (by decide)

/-- C19, at a request with sequence 1 and amount 100, a 256-byte transaction
array and a node with a 33-byte public key. -/
theorem ripple_signTx_signs_what_it_emits_witness :
    ((clear_resp 256).has_serialized_tx = false
      ∧ demo_node.public_key.length = 33
      ∧ 64 ≤ (clear_resp 256).signature_bytes.length
      ∧ (ripple_signTx (sign_env 0 256 258) demo_node tx_seq1_amount100
          (clear_resp 256)).resp.has_serialized_tx = true
      ∧ (ripple_signTx (sign_env 0 256 258) demo_node tx_seq1_amount100
          (clear_resp 256)).resp.serialized_tx_size ≤ (sign_env 0 256 258).bytes_size)
    ∧ (∃ addr w pre post,
      ripple_getAddress (sign_env 0 256 258) demo_node = some addr
      ∧ first_pass (sign_env 0 256 258) demo_node
          (set_canonical (sign_env 0 256 258) tx_seq1_amount100) addr = .ret true w
      ∧ w.mem.take w.pos = [0x53, 0x54, 0x58, 0x00] ++ (pre ++ post)
      ∧ w.pos = 4 + (pre ++ post).length
      ∧ (ripple_signTx (sign_env 0 256 258) demo_node tx_seq1_amount100
          (clear_resp 256)).hashed = some ([0x53, 0x54, 0x58, 0x00] ++ (pre ++ post))
      ∧ (ripple_signTx (sign_env 0 256 258) demo_node tx_seq1_amount100
            (clear_resp 256)).resp.serialized_tx_bytes.take
            (ripple_signTx (sign_env 0 256 258) demo_node tx_seq1_amount100
              (clear_resp 256)).resp.serialized_tx_size
          = pre ++ ([0x74, 0x40]
              ++ (ripple_signTx (sign_env 0 256 258) demo_node tx_seq1_amount100
                  (clear_resp 256)).resp.signature_bytes.take 64) ++ post
      ∧ (∃ pre0, pre = pre0 ++ ([0x73, 0x21] ++ demo_node.public_key))
      ∧ ((ripple_signTx (sign_env 0 256 258) demo_node tx_seq1_amount100
            (clear_resp 256)).resp.serialized_tx_bytes.take
            (ripple_signTx (sign_env 0 256 258) demo_node tx_seq1_amount100
              (clear_resp 256)).resp.serialized_tx_size).take 4
          ≠ [0x53, 0x54, 0x58, 0x00])
    ∧ (ripple_signTx (sign_env 0 256 258) demo_node tx_seq1_amount100
        (clear_resp 256)).resp.serialized_tx_size = 143 :=
  ⟨⟨by decide, by decide, by decide, by decide, by decide⟩,
    ripple_signTx_signs_what_it_emits (sign_env 0 256 258) demo_node tx_seq1_amount100
      (clear_resp 256) (by decide) (by decide) (by decide) (by decide) (by decide),
    by decide⟩

/-! ## C20: the length encoding can be decoded -/

theorem varint_bytes_cases (n : Int) (h0 : 0 ≤ n) (h1 : n < 918744) :
    (n < 192 ∧ varint_bytes n = [n.toNat])
    ∨ (192 ≤ n ∧ n ≤ 12480
        ∧ varint_bytes n = [(193 + (n - 193) / 256).toNat, ((n - 193) % 256).toNat])
    ∨ (12480 < n
        ∧ varint_bytes n = [(241 + (n - 12481) / 65536).toNat,
            ((n - 12481) / 256 % 256).toNat, ((n - 12481) % 256).toNat]) := by
  unfold varint_bytes
  by_cases h192 : n < 192
  · left
    rw [if_pos h192]
    exact ⟨h192, rfl⟩
  · by_cases h2 : n ≤ 12480
    · right; left
      rw [if_neg h192, if_pos h2, land_0xff, Int.shiftRight_eq_div_pow]
      refine ⟨by omega, h2, ?_⟩
      norm_num
    · right; right
      rw [if_neg h192, if_neg h2, land_0xff, land_0xff, Int.shiftRight_eq_div_pow,
        Int.shiftRight_eq_div_pow]
      refine ⟨by omega, ?_⟩
      norm_num

/-- C20. For all lengths `m ≠ n` in [0, 918743] and a writer with at least
four bytes left, the byte sequences `ripple_serializeVarint` writes for `m`
and for `n` differ and neither is the start of the other; the first byte is at
most 254 (never 0xFF) and alone gives the width: one byte when it is at most
191, two when it is in 192..240, three when it is in 241..254. -/
theorem ripple_serializeVarint_decodable (end_ : Nat) (w : Writer) (m n : Int)
    (hm0 : 0 ≤ m) (hm1 : m ≤ 918743) (hn0 : 0 ≤ n) (hn1 : n ≤ 918743) (hne : m ≠ n)
    (hcap : w.pos + 4 ≤ end_) (hmem : end_ ≤ w.mem.length) :
    ripple_serializeVarint end_ m w = .ret true (w.appended (varint_bytes m))
    ∧ ripple_serializeVarint end_ n w = .ret true (w.appended (varint_bytes n))
    ∧ varint_bytes m ≠ varint_bytes n
    ∧ (∀ t, varint_bytes m ++ t ≠ varint_bytes n)
    ∧ (∀ t, varint_bytes n ++ t ≠ varint_bytes m)
    ∧ (∃ b rest, varint_bytes m = b :: rest ∧ b ≤ 254
        ∧ (varint_bytes m).length = if b ≤ 191 then 1 else if b ≤ 240 then 2 else 3) := by
  have lm := varint_bytes_length_le m
  have ln := varint_bytes_length_le n
  have key : ∀ t, varint_bytes m ++ t ≠ varint_bytes n := by
    intro t h
    rcases varint_bytes_cases m hm0 (by omega) with ⟨a1, a2⟩ | ⟨a1, a2, a3⟩ | ⟨a1, a2⟩ <;>
    rcases varint_bytes_cases n hn0 (by omega) with ⟨b1, b2⟩ | ⟨b1, b2, b3⟩ | ⟨b1, b2⟩
    all_goals
      first
        | (rw [a2, b2] at h
           simp only [List.cons_append, List.nil_append, List.cons.injEq] at h
           omega)
        | (rw [a3, b2] at h
           simp only [List.cons_append, List.nil_append, List.cons.injEq] at h
           omega)
        | (rw [a2, b3] at h
           simp only [List.cons_append, List.nil_append, List.cons.injEq] at h
           omega)
        | (rw [a3, b3] at h
           simp only [List.cons_append, List.nil_append, List.cons.injEq] at h
           omega)
  have key2 : ∀ t, varint_bytes n ++ t ≠ varint_bytes m := by
    intro t h
    rcases varint_bytes_cases m hm0 (by omega) with ⟨a1, a2⟩ | ⟨a1, a2, a3⟩ | ⟨a1, a2⟩ <;>
    rcases varint_bytes_cases n hn0 (by omega) with ⟨b1, b2⟩ | ⟨b1, b2, b3⟩ | ⟨b1, b2⟩
    all_goals
      first
        | (rw [a2, b2] at h
           simp only [List.cons_append, List.nil_append, List.cons.injEq] at h
           omega)
        | (rw [a3, b2] at h
           simp only [List.cons_append, List.nil_append, List.cons.injEq] at h
           omega)
        | (rw [a2, b3] at h
           simp only [List.cons_append, List.nil_append, List.cons.injEq] at h
           omega)
        | (rw [a3, b3] at h
           simp only [List.cons_append, List.nil_append, List.cons.injEq] at h
           omega)
  refine ⟨?_, ?_, ?_, key, key2, ?_⟩
  · rw [ripple_serializeVarint_ok _ _ _ hm0 (by omega) hcap, Writer.append_eq_appended]
    omega
  · rw [ripple_serializeVarint_ok _ _ _ hn0 (by omega) hcap, Writer.append_eq_appended]
    omega
  · intro h
    exact key [] (by rw [List.append_nil]; exact h)
  · rcases varint_bytes_cases m hm0 (by omega) with ⟨a1, a2⟩ | ⟨a1, a2, a3⟩ | ⟨a1, a2⟩
    · refine ⟨_, _, a2, by omega, ?_⟩
      rw [a2, if_pos (by omega)]
      rfl
    · refine ⟨_, _, a3, by omega, ?_⟩
      rw [a3, if_neg (by omega), if_pos (by omega)]
      rfl
    · refine ⟨_, _, a2, by omega, ?_⟩
      rw [a2, if_neg (by omega), if_neg (by omega)]
      rfl

/-- C20, at the lengths 192 and 448, whose encodings C0 FF and C1 FF share
the second byte. -/
theorem ripple_serializeVarint_decodable_witness :
    ((0 : Int) ≤ 192 ∧ (192 : Int) ≤ 918743 ∧ (0 : Int) ≤ 448 ∧ (448 : Int) ≤ 918743
      ∧ (192 : Int) ≠ 448 ∧ (zero_writer 4).pos + 4 ≤ 4 ∧ 4 ≤ (zero_writer 4).mem.length)
    ∧ (ripple_serializeVarint 4 192 (zero_writer 4)
          = .ret true ((zero_writer 4).appended (varint_bytes 192))
      ∧ ripple_serializeVarint 4 448 (zero_writer 4)
          = .ret true ((zero_writer 4).appended (varint_bytes 448))
      ∧ varint_bytes 192 ≠ varint_bytes 448
      ∧ (∀ t, varint_bytes 192 ++ t ≠ varint_bytes 448)
      ∧ (∀ t, varint_bytes 448 ++ t ≠ varint_bytes 192)
      ∧ (∃ b rest, varint_bytes 192 = b :: rest ∧ b ≤ 254
          ∧ (varint_bytes 192).length = if b ≤ 191 then 1 else if b ≤ 240 then 2 else 3)) :=
  ⟨⟨by decide, by decide, by decide, by decide, by decide, by decide, by decide⟩,
    ripple_serializeVarint_decodable 4 (zero_writer 4) 192 448
      (by decide) (by decide) (by decide) (by decide) (by decide) (by decide) (by decide)⟩

/-! ## C7: the presence flags of a returned result -/

end Ripple
